import Mathlib

/-!
Verification of the `agent-thinker` research pipeline (orchestrator, agents,
chunker) from the deepresearch repository.

The Python sources are shallowly embedded:

* Python/JSON values are the inductive type `DR.Val`; `json.dumps` and
  `json.loads` from the standard library are modelled by `DR.dumpJson` and
  `DR.parseJson` (objects keep their key order as association lists; numeric
  literals and `\u` escapes are not modelled, and strings are serialized
  without ASCII-escaping of non-ASCII characters — no claim depends on them).
* External collaborators (the search/scrape HTTP services and the OpenAI
  client) are modelled as oracle streams of outcomes (`DR.Collab`), indexed by
  a per-collaborator invocation counter (`DR.World`).
* Mutable `Task` objects are stored in an explicit heap (`DR.Orch.heap`);
  the registry and the queue hold references into it, mirroring Python's
  aliasing of the same object from both.
-/

namespace DR

/-- Embedded Python/JSON value (`None`, booleans, strings, lists, dicts). -/
inductive Val where
  | null : Val
  | bool (b : Bool) : Val
  | str (s : String) : Val
  | arr (xs : List Val) : Val
  | obj (kvs : List (String × Val)) : Val

/-- The opening-brace character, `\x7b`. -/
def lbrace : Char := Char.ofNat 123

/-- The closing-brace character, `\x7d`. -/
def rbrace : Char := Char.ofNat 125

/-- JSON string escaping as performed by `json.dumps` (quote, backslash and
the common control characters; other characters are emitted raw). -/
def escChar (c : Char) : List Char :=
  if c = '"' then ['\\', '"']
  else if c = '\\' then ['\\', '\\']
  else if c = '\n' then ['\\', 'n']
  else if c = '\t' then ['\\', 't']
  else if c = '\r' then ['\\', 'r']
  else [c]

def escList : List Char → List Char
  | [] => []
  | c :: cs => escChar c ++ escList cs

mutual

/-- `json.dumps` (with its default separators), emitting characters. -/
def dumpVal : Val → List Char
  | .null => 'n' :: ['u', 'l', 'l']
  | .bool true => 't' :: ['r', 'u', 'e']
  | .bool false => 'f' :: ['a', 'l', 's', 'e']
  | .str s => '"' :: (escList s.data ++ ['"'])
  | .arr vs => '[' :: (dumpElems vs ++ [']'])
  | .obj kvs => lbrace :: (dumpMembers kvs ++ [rbrace])

def dumpElems : List Val → List Char
  | [] => []
  | [v] => dumpVal v
  | v :: w :: ws => dumpVal v ++ ',' :: ' ' :: dumpElems (w :: ws)

def dumpMembers : List (String × Val) → List Char
  | [] => []
  | [(k, v)] => '"' :: (escList k.data ++ '"' :: ':' :: ' ' :: dumpVal v)
  | (k, v) :: m :: ms =>
      ('"' :: (escList k.data ++ '"' :: ':' :: ' ' :: dumpVal v))
        ++ ',' :: ' ' :: dumpMembers (m :: ms)

end

/-- `json.dumps` as a string-producing function. -/
def dumpJson (v : Val) : String := String.mk (dumpVal v)

def isWsC (c : Char) : Bool := c = ' ' || c = '\n' || c = '\t' || c = '\r'

def skipWs : List Char → List Char
  | [] => []
  | c :: cs => if isWsC c then skipWs cs else c :: cs

def expectChars : List Char → List Char → Option (List Char)
  | [], input => some input
  | _ :: _, [] => none
  | p :: ps, c :: cs => if c = p then expectChars ps cs else none

def unescChar (e : Char) : Option Char :=
  if e = '"' then some '"'
  else if e = '\\' then some '\\'
  else if e = '/' then some '/'
  else if e = 'n' then some '\n'
  else if e = 't' then some '\t'
  else if e = 'r' then some '\r'
  else if e = 'b' then some (Char.ofNat 8)
  else if e = 'f' then some (Char.ofNat 12)
  else none

/-- Parse the body of a JSON string literal (the opening quote already
consumed); returns the decoded characters and the input after the closing
quote. -/
def parseStrRest : List Char → Option (List Char × List Char)
  | [] => none
  | c :: cs =>
    if c = '"' then some ([], cs)
    else if c = '\\' then
      match cs with
      | [] => none
      | e :: cs2 =>
        match unescChar e with
        | some c2 =>
          match parseStrRest cs2 with
          | some (s, r) => some (c2 :: s, r)
          | none => none
        | none => none
    else
      match parseStrRest cs with
      | some (s, r) => some (c :: s, r)
      | none => none

mutual

/-- Fuel-indexed JSON value parser (`json.loads`, restricted to the
null/bool/string/array/object fragment). -/
def parseVal : Nat → List Char → Option (Val × List Char)
  | 0, _ => none
  | Nat.succ fuel, input =>
    match skipWs input with
    | [] => none
    | c :: rest =>
      if c = 'n' then (expectChars ['u', 'l', 'l'] rest).map (fun r => (Val.null, r))
      else if c = 't' then (expectChars ['r', 'u', 'e'] rest).map (fun r => (Val.bool true, r))
      else if c = 'f' then (expectChars ['a', 'l', 's', 'e'] rest).map (fun r => (Val.bool false, r))
      else if c = '"' then (parseStrRest rest).map (fun p => (Val.str (String.mk p.1), p.2))
      else if c = '[' then
        match skipWs rest with
        | [] => none
        | d :: r2 => if d = ']' then some (Val.arr [], r2) else parseItems fuel (d :: r2)
      else if c = lbrace then
        match skipWs rest with
        | [] => none
        | d :: r2 => if d = rbrace then some (Val.obj [], r2) else parseMembers fuel (d :: r2)
      else none

def parseItems : Nat → List Char → Option (Val × List Char)
  | 0, _ => none
  | Nat.succ fuel, input =>
    match parseVal fuel input with
    | none => none
    | some (v, r) =>
      match skipWs r with
      | [] => none
      | d :: r2 =>
        if d = ',' then
          match parseItems fuel r2 with
          | some (Val.arr vs, r3) => some (Val.arr (v :: vs), r3)
          | _ => none
        else if d = ']' then some (Val.arr [v], r2)
        else none

def parseMembers : Nat → List Char → Option (Val × List Char)
  | 0, _ => none
  | Nat.succ fuel, input =>
    match skipWs input with
    | [] => none
    | c :: rest =>
      if c = '"' then
        match parseStrRest rest with
        | none => none
        | some (kcs, r) =>
          match skipWs r with
          | [] => none
          | d :: r2 =>
            if d = ':' then
              match parseVal fuel r2 with
              | none => none
              | some (v, r3) =>
                match skipWs r3 with
                | [] => none
                | e :: r4 =>
                  if e = ',' then
                    match parseMembers fuel r4 with
                    | some (Val.obj ms, r5) => some (Val.obj ((String.mk kcs, v) :: ms), r5)
                    | _ => none
                  else if e = rbrace then some (Val.obj [(String.mk kcs, v)], r4)
                  else none
            else none
      else none

end

/-- `json.loads` on a string: parse one value and require only whitespace
after it. -/
def parseJson (s : String) : Except String Val :=
  match parseVal (s.length + 1) s.data with
  | some (v, r) => if skipWs r = [] then .ok v else .error "Extra data"
  | none => .error "Expecting value"

mutual

/-- Fuel sufficient for `parseVal` to re-parse `dumpVal v`. -/
def valFuel : Val → Nat
  | .null => 1
  | .bool _ => 1
  | .str _ => 1
  | .arr vs => 1 + elemsFuel vs
  | .obj ms => 1 + membersFuel ms

def elemsFuel : List Val → Nat
  | [] => 0
  | [v] => 1 + valFuel v
  | v :: w :: ws => 1 + valFuel v + elemsFuel (w :: ws)

def membersFuel : List (String × Val) → Nat
  | [] => 0
  | [(_, v)] => 1 + valFuel v
  | (_, v) :: m :: ms => 1 + valFuel v + membersFuel (m :: ms)

end

theorem valFuel_pos (v : Val) : 1 ≤ valFuel v := by
  match v with
  | .null | .bool _ | .str _ => simp [valFuel]
  | .arr vs => simp only [valFuel]; omega
  | .obj ms => simp only [valFuel]; omega

theorem elemsFuel_pos (v : Val) (vs : List Val) : 1 ≤ elemsFuel (v :: vs) := by
  match vs with
  | [] => simp only [elemsFuel]; omega
  | w :: ws => simp only [elemsFuel]; omega

theorem membersFuel_pos (m : String × Val) (ms : List (String × Val)) :
    1 ≤ membersFuel (m :: ms) := by
  match m, ms with
  | (k, v), [] => simp only [membersFuel]; omega
  | (k, v), m :: ms => simp only [membersFuel]; omega

theorem string_mk_data (s : String) : String.mk s.data = s := rfl

theorem skipWs_space (i : List Char) : skipWs (' ' :: i) = skipWs i := by
  simp [skipWs, isWsC]

theorem parseVal_space (f : Nat) (i : List Char) :
    parseVal f (' ' :: i) = parseVal f i := by
  match f with
  | 0 => rfl
  | Nat.succ n => simp only [parseVal, skipWs_space]

theorem parseItems_space (f : Nat) (i : List Char) :
    parseItems f (' ' :: i) = parseItems f i := by
  match f with
  | 0 => rfl
  | Nat.succ n => simp only [parseItems, parseVal_space]

theorem parseMembers_space (f : Nat) (i : List Char) :
    parseMembers f (' ' :: i) = parseMembers f i := by
  match f with
  | 0 => rfl
  | Nat.succ n => simp only [parseMembers, skipWs_space]

theorem parseStrRest_esc (cs : List Char) :
    ∀ rest, parseStrRest (escList cs ++ '"' :: rest) = some (cs, rest) := by
  induction cs with
  | nil =>
    intro rest
    rw [show escList [] ++ '"' :: rest = '"' :: rest by simp [escList]]
    rw [parseStrRest.eq_def]; simp
  | cons c cs ih =>
    intro rest
    have hesc : escList (c :: cs) = escChar c ++ escList cs := by simp [escList]
    by_cases h1 : c = '"'
    · subst h1; rw [hesc, show escChar '"' = ['\\', '"'] from rfl]
      simp only [List.cons_append, List.nil_append, List.append_assoc]
      rw [parseStrRest.eq_def]; simp [unescChar, ih]
    · by_cases h2 : c = '\\'
      · subst h2; rw [hesc, show escChar '\\' = ['\\', '\\'] from rfl]
        simp only [List.cons_append, List.nil_append, List.append_assoc]
        rw [parseStrRest.eq_def]; simp [unescChar, ih]
      · by_cases h3 : c = '\n'
        · subst h3; rw [hesc, show escChar '\n' = ['\\', 'n'] from rfl]
          simp only [List.cons_append, List.nil_append, List.append_assoc]
          rw [parseStrRest.eq_def]; simp [unescChar, ih]
        · by_cases h4 : c = '\t'
          · subst h4; rw [hesc, show escChar '\t' = ['\\', 't'] from rfl]
            simp only [List.cons_append, List.nil_append, List.append_assoc]
            rw [parseStrRest.eq_def]; simp [unescChar, ih]
          · by_cases h5 : c = '\r'
            · subst h5; rw [hesc, show escChar '\r' = ['\\', 'r'] from rfl]
              simp only [List.cons_append, List.nil_append, List.append_assoc]
              rw [parseStrRest.eq_def]; simp [unescChar, ih]
            · rw [hesc, show escChar c = [c] from by simp [escChar, h1, h2, h3, h4, h5]]
              simp only [List.cons_append, List.nil_append, List.append_assoc]
              rw [parseStrRest.eq_def]; simp [h1, h2, ih]

/-- The serialization of any value starts with a non-whitespace character
distinct from the list and object closers and separators. -/
theorem dumpVal_head (v : Val) :
    ∃ c t, dumpVal v = c :: t ∧ isWsC c = false ∧ c ≠ ']' := by
  match v with
  | .null => exact ⟨'n', ['u', 'l', 'l'], by simp [dumpVal], by decide, by decide⟩
  | .bool true => exact ⟨'t', ['r', 'u', 'e'], by simp [dumpVal], by decide, by decide⟩
  | .bool false => exact ⟨'f', ['a', 'l', 's', 'e'], by simp [dumpVal], by decide, by decide⟩
  | .str s => exact ⟨'"', escList s.data ++ ['"'], by simp [dumpVal], by decide, by decide⟩
  | .arr vs => exact ⟨'[', dumpElems vs ++ [']'], by simp [dumpVal], by decide, by decide⟩
  | .obj ms => exact ⟨lbrace, dumpMembers ms ++ [rbrace], by simp [dumpVal], by decide, by decide⟩

theorem dumpElems_head (v : Val) (vs : List Val) :
    ∃ c t, dumpElems (v :: vs) = c :: t ∧ isWsC c = false ∧ c ≠ ']' := by
  obtain ⟨c, t, hd, hws, hne⟩ := dumpVal_head v
  match vs with
  | [] => exact ⟨c, t, by simp [dumpElems, hd], hws, hne⟩
  | w :: ws =>
    exact ⟨c, t ++ ',' :: ' ' :: dumpElems (w :: ws), by simp [dumpElems, hd], hws, hne⟩

theorem skipWs_nws {c : Char} (h : isWsC c = false) (cs : List Char) :
    skipWs (c :: cs) = c :: cs := by
  simp [skipWs, h]

theorem parseVal_arrBranch (n : Nat) (input : List Char) :
    parseVal (Nat.succ n) ('[' :: input) =
      (match skipWs input with
       | [] => none
       | d :: r2 => if d = ']' then some (Val.arr [], r2) else parseItems n (d :: r2)) := by
  rfl

theorem parseVal_objBranch (n : Nat) (input : List Char) :
    parseVal (Nat.succ n) (lbrace :: input) =
      (match skipWs input with
       | [] => none
       | d :: r2 => if d = rbrace then some (Val.obj [], r2) else parseMembers n (d :: r2)) := by
  rfl

theorem parseVal_arrCons {d : Char} (h : isWsC d = false) (hne : d ≠ ']')
    (n : Nat) (r2 : List Char) :
    parseVal (Nat.succ n) ('[' :: d :: r2) = parseItems n (d :: r2) := by
  rw [parseVal_arrBranch, skipWs_nws h]
  exact if_neg hne

theorem parseVal_objCons {d : Char} (h : isWsC d = false) (hne : d ≠ rbrace)
    (n : Nat) (r2 : List Char) :
    parseVal (Nat.succ n) (lbrace :: d :: r2) = parseMembers n (d :: r2) := by
  rw [parseVal_objBranch, skipWs_nws h]
  exact if_neg hne

theorem dumpMembers_head (m : String × Val) (ms : List (String × Val)) :
    ∃ t, dumpMembers (m :: ms) = '"' :: t := by
  match m, ms with
  | (k, v), [] =>
    exact ⟨escList k.data ++ '"' :: ':' :: ' ' :: dumpVal v, by simp [dumpMembers]⟩
  | (k, v), m :: ms =>
    exact ⟨escList k.data ++ '"' :: ':' :: ' ' :: dumpVal v
        ++ ',' :: ' ' :: dumpMembers (m :: ms),
      by simp [dumpMembers]⟩

/-- Round trip: the parser recovers any serialized value exactly (given
enough fuel). -/
theorem parse_dump (fuel : Nat) :
    (∀ v rest, valFuel v ≤ fuel → parseVal fuel (dumpVal v ++ rest) = some (v, rest)) ∧
    (∀ v vs rest, elemsFuel (v :: vs) ≤ fuel →
      parseItems fuel (dumpElems (v :: vs) ++ ']' :: rest) = some (Val.arr (v :: vs), rest)) ∧
    (∀ m ms rest, membersFuel (m :: ms) ≤ fuel →
      parseMembers fuel (dumpMembers (m :: ms) ++ rbrace :: rest)
        = some (Val.obj (m :: ms), rest)) := by
  induction fuel with
  | zero =>
    refine ⟨fun v rest h => absurd h (by have := valFuel_pos v; omega),
      fun v vs rest h => absurd h (by have := elemsFuel_pos v vs; omega),
      fun m ms rest h => absurd h (by have := membersFuel_pos m ms; omega)⟩
  | succ n ih =>
    obtain ⟨ihA, ihB, ihC⟩ := ih
    refine ⟨?_, ?_, ?_⟩
    · intro v rest h
      match v with
      | .null =>
        rw [show dumpVal .null ++ rest = 'n' :: 'u' :: 'l' :: 'l' :: rest from by
          simp [dumpVal]]
        rfl
      | .bool true =>
        rw [show dumpVal (.bool true) ++ rest = 't' :: 'r' :: 'u' :: 'e' :: rest from by
          simp [dumpVal]]
        rfl
      | .bool false =>
        rw [show dumpVal (.bool false) ++ rest = 'f' :: 'a' :: 'l' :: 's' :: 'e' :: rest from by
          simp [dumpVal]]
        rfl
      | .str s =>
        rw [show dumpVal (.str s) ++ rest = '"' :: (escList s.data ++ '"' :: rest) from by
          simp [dumpVal]]
        rw [show parseVal (Nat.succ n) ('"' :: (escList s.data ++ '"' :: rest)) =
          (parseStrRest (escList s.data ++ '"' :: rest)).map
            (fun p => (Val.str (String.mk p.1), p.2)) from rfl]
        rw [parseStrRest_esc]
        simp [string_mk_data]
      | .arr [] =>
        rw [show dumpVal (.arr []) ++ rest = '[' :: ']' :: rest from by
          simp [dumpVal, dumpElems]]
        rfl
      | .arr (v1 :: vs) =>
        have hfuel : elemsFuel (v1 :: vs) ≤ n := by
          simp only [valFuel] at h; omega
        obtain ⟨c0, t0, hd, hws, hne⟩ := dumpElems_head v1 vs
        rw [show dumpVal (.arr (v1 :: vs)) ++ rest
            = '[' :: (dumpElems (v1 :: vs) ++ ']' :: rest)
          from by simp [dumpVal]]
        rw [hd, List.cons_append, parseVal_arrCons hws hne]
        rw [← List.cons_append, ← hd]
        exact ihB v1 vs rest hfuel
      | .obj [] =>
        rw [show dumpVal (.obj []) ++ rest = lbrace :: rbrace :: rest from by
          simp [dumpVal, dumpMembers]]
        rw [parseVal_objBranch]
        rw [skipWs_nws (by decide : isWsC rbrace = false)]
        simp
      | .obj (m1 :: ms) =>
        have hfuel : membersFuel (m1 :: ms) ≤ n := by
          simp only [valFuel] at h; omega
        obtain ⟨t0, hd⟩ := dumpMembers_head m1 ms
        rw [show dumpVal (.obj (m1 :: ms)) ++ rest
            = lbrace :: (dumpMembers (m1 :: ms) ++ rbrace :: rest)
          from by simp [dumpVal]]
        rw [hd, List.cons_append,
          parseVal_objCons (by decide : isWsC '"' = false) (by decide : '"' ≠ rbrace)]
        rw [← List.cons_append, ← hd]
        exact ihC m1 ms rest hfuel
    · intro v vs rest h
      match vs with
      | [] =>
        have hv : valFuel v ≤ n := by simp only [elemsFuel] at h; omega
        rw [show dumpElems [v] ++ ']' :: rest = dumpVal v ++ ']' :: rest from by
          simp [dumpElems]]
        rw [parseItems.eq_def]
        simp only [ihA v (']' :: rest) hv]
        rw [skipWs_nws (by decide : isWsC ']' = false)]
        simp
      | w :: ws =>
        have hv1 : valFuel v ≤ n := by simp only [elemsFuel] at h; omega
        have hv2 : elemsFuel (w :: ws) ≤ n := by
          rw [show elemsFuel (v :: w :: ws) = 1 + valFuel v + elemsFuel (w :: ws)
            from by simp [elemsFuel]] at h
          omega
        rw [show dumpElems (v :: w :: ws) ++ ']' :: rest =
          dumpVal v ++ ',' :: ' ' :: (dumpElems (w :: ws) ++ ']' :: rest) from by
            simp [dumpElems]]
        rw [parseItems.eq_def]
        simp only [ihA v (',' :: ' ' :: (dumpElems (w :: ws) ++ ']' :: rest)) hv1]
        rw [skipWs_nws (by decide : isWsC ',' = false)]
        simp only [if_pos rfl, parseItems_space, ihB w ws rest hv2]
        simp
    · intro m ms rest h
      match m, ms with
      | (k, v), [] =>
        have hv : valFuel v ≤ n := by simp only [membersFuel] at h; omega
        rw [show dumpMembers [(k, v)] ++ rbrace :: rest =
          '"' :: (escList k.data ++ '"' :: ':' :: ' ' :: (dumpVal v ++ rbrace :: rest))
          from by simp [dumpMembers]]
        rw [parseMembers.eq_def]
        simp only [skipWs_nws (by decide : isWsC '"' = false)]
        simp only [if_pos rfl, parseStrRest_esc]
        rw [skipWs_nws (by decide : isWsC ':' = false)]
        simp only [if_pos rfl, parseVal_space, ihA v (rbrace :: rest) hv]
        rw [skipWs_nws (by decide : isWsC rbrace = false)]
        simp [string_mk_data, (by decide : ¬(rbrace = ','))]
      | (k, v), m1 :: ms1 =>
        have hv1 : valFuel v ≤ n := by simp only [membersFuel] at h; omega
        have hv2 : membersFuel (m1 :: ms1) ≤ n := by
          rw [show membersFuel ((k, v) :: m1 :: ms1)
              = 1 + valFuel v + membersFuel (m1 :: ms1)
            from by simp [membersFuel]] at h
          omega
        rw [show dumpMembers ((k, v) :: m1 :: ms1) ++ rbrace :: rest =
          '"' :: (escList k.data ++ '"' :: ':' :: ' ' ::
            (dumpVal v ++ ',' :: ' ' :: (dumpMembers (m1 :: ms1) ++ rbrace :: rest)))
          from by simp [dumpMembers]]
        rw [parseMembers.eq_def]
        simp only [skipWs_nws (by decide : isWsC '"' = false)]
        simp only [if_pos rfl, parseStrRest_esc]
        rw [skipWs_nws (by decide : isWsC ':' = false)]
        simp only [if_pos rfl, parseVal_space,
          ihA v (',' :: ' ' :: (dumpMembers (m1 :: ms1) ++ rbrace :: rest)) hv1]
        rw [skipWs_nws (by decide : isWsC ',' = false)]
        simp only [if_pos rfl, parseMembers_space, ihC m1 ms1 rest hv2]
        simp [string_mk_data]

theorem val_sizeOf_pos (v : Val) : 0 < sizeOf v := by
  cases v <;> simp_arith

/-- The fuel needed to re-parse a dump is below the dump's length. -/
theorem fuel_le_dumpLen (N : Nat) :
    (∀ v : Val, sizeOf v ≤ N → valFuel v < (dumpVal v).length) ∧
    (∀ vs : List Val, sizeOf vs ≤ N → elemsFuel vs ≤ (dumpElems vs).length) ∧
    (∀ ms : List (String × Val), sizeOf ms ≤ N →
      membersFuel ms ≤ (dumpMembers ms).length) := by
  induction N with
  | zero =>
    refine ⟨fun v h => absurd h (by have := val_sizeOf_pos v; omega),
      fun vs h => ?_, fun ms h => ?_⟩
    · match vs with
      | [] => simp [elemsFuel, dumpElems]
      | v :: vs => exact absurd h (by have := val_sizeOf_pos v; simp_arith)
    · match ms with
      | [] => simp [membersFuel, dumpMembers]
      | (k, v) :: ms => exact absurd h (by have := val_sizeOf_pos v; simp_arith)
  | succ N ih =>
    obtain ⟨ihA, ihB, ihC⟩ := ih
    refine ⟨?_, ?_, ?_⟩
    · intro v h
      match v with
      | .null => simp [valFuel, dumpVal]
      | .bool true => simp [valFuel, dumpVal]
      | .bool false => simp [valFuel, dumpVal]
      | .str s => simp [valFuel, dumpVal]
      | .arr vs =>
        have hs : sizeOf vs ≤ N := by simp_arith at h; omega
        have := ihB vs hs
        simp only [valFuel, dumpVal, List.length_cons, List.length_append]
        simp; omega
      | .obj ms =>
        have hs : sizeOf ms ≤ N := by simp_arith at h; omega
        have := ihC ms hs
        simp only [valFuel, dumpVal, List.length_cons, List.length_append]
        simp; omega
    · intro vs h
      match vs with
      | [] => simp [elemsFuel, dumpElems]
      | [v] =>
        have hv : sizeOf v ≤ N := by simp_arith at h; omega
        have := ihA v hv
        simp only [elemsFuel, dumpElems]
        omega
      | v :: w :: ws =>
        have hv : sizeOf v ≤ N := by simp_arith at h; omega
        have hw : sizeOf (w :: ws) ≤ N := by simp_arith at h; simp_arith; omega
        have h1 := ihA v hv
        have h2 := ihB (w :: ws) hw
        simp only [elemsFuel, dumpElems, List.length_append, List.length_cons]
        omega
    · intro ms h
      match ms with
      | [] => simp [membersFuel, dumpMembers]
      | [(k, v)] =>
        have hv : sizeOf v ≤ N := by simp_arith at h; omega
        have := ihA v hv
        simp only [membersFuel, dumpMembers, List.length_cons, List.length_append]
        omega
      | (k, v) :: m1 :: ms1 =>
        have hv : sizeOf v ≤ N := by simp_arith at h; omega
        have hm : sizeOf (m1 :: ms1) ≤ N := by simp_arith at h; simp_arith; omega
        have h1 := ihA v hv
        have h2 := ihC (m1 :: ms1) hm
        simp only [membersFuel, dumpMembers, List.length_cons, List.length_append]
        omega

/-- `json.loads` inverts `json.dumps`. -/
theorem parseJson_dumpJson (v : Val) : parseJson (dumpJson v) = .ok v := by
  have hlen : valFuel v < (dumpVal v).length := (fuel_le_dumpLen (sizeOf v)).1 v le_rfl
  have hdata : (dumpJson v).data = dumpVal v := rfl
  have hslen : (dumpJson v).length = (dumpVal v).length := rfl
  have hr := (parse_dump ((dumpJson v).length + 1)).1 v [] (by omega)
  rw [List.append_nil] at hr
  simp [parseJson, hdata, hr, skipWs]

instance : DecidableEq Val := fun a b =>
  if h : dumpJson a = dumpJson b then
    .isTrue (by
      have ha := parseJson_dumpJson a
      rw [h, parseJson_dumpJson b] at ha
      exact (Except.ok.injEq _ _ ▸ ha).symm)
  else
    .isFalse (fun hh => h (by rw [hh]))

/-! ## Chunker (`ToolCallAggregator.chunk_tool_output` in `cli.py`)

The `tiktoken` encoder is external; the token-count function
`tok : String → Nat` (standing for `len(enc.encode(·))`) is a parameter of
the embedding, and `approxTokens` below is a concrete whitespace-word count
used to instantiate it. -/

/-- `str.splitlines` for newline-separated text (a final newline does not
produce a trailing empty line). -/
def splitLinesGo : List Char → List Char → List String
  | [], [] => []
  | [], acc => [String.mk acc]
  | c :: rest, acc =>
    if c = '\n' then String.mk acc :: splitLinesGo rest []
    else splitLinesGo rest (acc ++ [c])

def splitLines (s : String) : List String := splitLinesGo s.data []

/-- The string `"\n".join(xs)`. -/
def joinNl : List String → String
  | [] => ""
  | [x] => x
  | x :: xs => x ++ "\n" ++ joinNl xs

/-- The string `" ".join(xs)`. -/
def joinSp : List String → String
  | [] => ""
  | [x] => x
  | x :: xs => x ++ " " ++ joinSp xs

/-- `str.split()` (split on whitespace runs, discarding empties). -/
def splitWsGo : List Char → List Char → List String
  | [], [] => []
  | [], acc => [String.mk acc]
  | c :: rest, acc =>
    if isWsC c then
      (if acc.isEmpty then splitWsGo rest [] else String.mk acc :: splitWsGo rest [])
    else splitWsGo rest (acc ++ [c])

def splitWords (s : String) : List String := splitWsGo s.data []

/-- `line.startswith(c)` for a single-character prefix. -/
def startsWithChar (s : String) (c : Char) : Bool :=
  match s.data with
  | [] => false
  | d :: _ => d = c

/-- The line starts a new section: heading / reference / image marker, or
the current section joined without separators exceeds 500 characters. -/
def isBoundary (line : String) (current : List String) : Bool :=
  startsWithChar line '#' || startsWithChar line '[' || startsWithChar line '!'
    || decide ((String.join current).length > 500)

/-- The segmentation loop of `chunk_tool_output` (lines 78-94 of `cli.py`). -/
def sectionsGo : List String → List String → List String
  | [], current => if current.isEmpty then [] else [joinNl current]
  | line :: rest, current =>
    if isBoundary line current then
      (if current.isEmpty then sectionsGo rest [line]
       else joinNl current :: sectionsGo rest [line])
    else sectionsGo rest (current ++ [line])

def splitSections (content : String) : List String := sectionsGo (splitLines content) []

/-- The oversized-section fallback: split into words and greedily repack
(lines 104-121 of `cli.py`). -/
def packWords (tok : String → Nat) (chunkSize : Nat) :
    List String → List String → Nat → List String
  | [], temp, _ => if temp.isEmpty then [] else [joinSp temp]
  | w :: ws, temp, tempTokens =>
    let wt := tok (w ++ " ")
    if tempTokens + wt > chunkSize then
      (if temp.isEmpty then packWords tok chunkSize ws [w] wt
       else joinSp temp :: packWords tok chunkSize ws [w] wt)
    else packWords tok chunkSize ws (temp ++ [w]) (tempTokens + wt)

/-- The packing loop of `chunk_tool_output` (lines 100-132 of `cli.py`).
Note that the fallback branch emits its sub-chunks without first flushing
the pending `current_chunk`, exactly as the source does. -/
def packSections (tok : String → Nat) (chunkSize : Nat) :
    List String → List String → Nat → List String
  | [], current, _ => if current.isEmpty then [] else [joinNl current]
  | sec :: rest, current, currentTokens =>
    let n := tok sec
    if n > chunkSize then
      packWords tok chunkSize (splitWords sec) [] 0
        ++ packSections tok chunkSize rest current currentTokens
    else if currentTokens + n > chunkSize then
      joinNl current :: packSections tok chunkSize rest [sec] n
    else
      packSections tok chunkSize rest (current ++ [sec]) (currentTokens + n)

/-- The list bound to `chunks` in `chunk_tool_output`. -/
def chunksOf (tok : String → Nat) (content : String) (chunkSize : Nat) : List String :=
  packSections tok chunkSize (splitSections content) [] 0

def addMarkers : Nat → List String → String
  | _, [] => ""
  | i, c :: cs =>
    "\n<start chunk " ++ toString i ++ ">\n" ++ c ++ "\n<end chunk " ++ toString i ++ ">\n"
      ++ addMarkers (i + 1) cs

/-- `chunk_tool_output(content, chunk_size)`: the chunks wrapped in
`<start chunk i>`/`<end chunk i>` marker pairs. -/
def chunk_tool_output (tok : String → Nat) (content : String) (chunkSize : Nat) : String :=
  addMarkers 1 (chunksOf tok content chunkSize)

/-- Instrumented variant of `packWords`: identical output, tagged `true`
(fallback-produced). -/
def packWordsT (tok : String → Nat) (chunkSize : Nat) :
    List String → List String → Nat → List (String × Bool)
  | [], temp, _ => if temp.isEmpty then [] else [(joinSp temp, true)]
  | w :: ws, temp, tempTokens =>
    let wt := tok (w ++ " ")
    if tempTokens + wt > chunkSize then
      (if temp.isEmpty then packWordsT tok chunkSize ws [w] wt
       else (joinSp temp, true) :: packWordsT tok chunkSize ws [w] wt)
    else packWordsT tok chunkSize ws (temp ++ [w]) (tempTokens + wt)

/-- Instrumented variant of `packSections`: each chunk carries whether it was
produced by the oversized-section fallback. -/
def packSectionsT (tok : String → Nat) (chunkSize : Nat) :
    List String → List String → Nat → List (String × Bool)
  | [], current, _ => if current.isEmpty then [] else [(joinNl current, false)]
  | sec :: rest, current, currentTokens =>
    let n := tok sec
    if n > chunkSize then
      packWordsT tok chunkSize (splitWords sec) [] 0
        ++ packSectionsT tok chunkSize rest current currentTokens
    else if currentTokens + n > chunkSize then
      (joinNl current, false) :: packSectionsT tok chunkSize rest [sec] n
    else
      packSectionsT tok chunkSize rest (current ++ [sec]) (currentTokens + n)

def chunksOfT (tok : String → Nat) (content : String) (chunkSize : Nat) :
    List (String × Bool) :=
  packSectionsT tok chunkSize (splitSections content) [] 0

/-- Concrete stand-in tokenizer: number of whitespace-separated words. -/
def countTokensGo : List Char → Bool → Nat
  | [], _ => 0
  | c :: cs, inWord =>
    if isWsC c then countTokensGo cs false
    else (if inWord then 0 else 1) + countTokensGo cs true

def approxTokens (s : String) : Nat := countTokensGo s.data false

theorem joinNl_cons_ne (x : String) (xs : List String) (h : xs ≠ []) :
    joinNl (x :: xs) = x ++ "\n" ++ joinNl xs := by
  cases xs with
  | nil => exact absurd rfl h
  | cons y ys => rfl

theorem joinNl_append (xs ys : List String) (hx : xs ≠ []) (hy : ys ≠ []) :
    joinNl (xs ++ ys) = joinNl xs ++ "\n" ++ joinNl ys := by
  induction xs with
  | nil => exact absurd rfl hx
  | cons x xs ih =>
    cases xs with
    | nil =>
      simp only [List.cons_append, List.nil_append]
      rw [joinNl_cons_ne x ys hy]
      rfl
    | cons y ys2 =>
      have hxs : y :: ys2 ≠ [] := by simp
      rw [List.cons_append, joinNl_cons_ne x ((y :: ys2) ++ ys) (by simp),
        joinNl_cons_ne x (y :: ys2) hxs, ih hxs]
      simp [String.append_assoc]

theorem sectionsGo_ne_nil (lines : List String) :
    ∀ current, current ≠ [] → sectionsGo lines current ≠ [] := by
  induction lines with
  | nil =>
    intro current h
    simp only [sectionsGo]
    rw [if_neg (by simpa using h)]
    simp
  | cons line rest ih =>
    intro current h
    simp only [sectionsGo]
    by_cases hb : isBoundary line current
    · rw [if_pos hb, if_neg (by simpa using h)]
      simp
    · rw [if_neg hb]
      exact ih (current ++ [line]) (by simp)

/-- The sections are a regrouping of the lines: rejoined with newlines they
give back the join of all lines. -/
theorem joinNl_sectionsGo (lines : List String) :
    ∀ current, joinNl (sectionsGo lines current) = joinNl (current ++ lines) := by
  induction lines with
  | nil =>
    intro current
    cases current with
    | nil => simp [sectionsGo]
    | cons c cs => simp [sectionsGo, joinNl]
  | cons line rest ih =>
    intro current
    simp only [sectionsGo]
    by_cases hb : isBoundary line current
    · rw [if_pos hb]
      cases current with
      | nil => simp [ih [line]]
      | cons c cs =>
        rw [if_neg (by simp)]
        have hne := sectionsGo_ne_nil rest [line] (by simp)
        rw [joinNl_cons_ne _ _ hne, ih [line]]
        rw [joinNl_append (c :: cs) (line :: rest) (by simp) (by simp)]
        simp
    · rw [if_neg hb, ih (current ++ [line])]
      simp

theorem packSections_ne_nil (tok : String → Nat) (chunkSize : Nat) (sections : List String)
    (hall : ∀ s ∈ sections, tok s ≤ chunkSize) :
    ∀ current tks, current ≠ [] →
      packSections tok chunkSize sections current tks ≠ [] := by
  induction sections with
  | nil =>
    intro current tks h
    simp only [packSections]
    rw [if_neg (by simpa using h)]
    simp
  | cons sec rest ih =>
    intro current tks h
    have hsec : tok sec ≤ chunkSize := hall sec (by simp)
    have hrest : ∀ s ∈ rest, tok s ≤ chunkSize := fun s hs => hall s (by simp [hs])
    simp only [packSections]
    rw [if_neg (by omega)]
    by_cases hflush : tks + tok sec > chunkSize
    · rw [if_pos hflush]; simp
    · rw [if_neg hflush]
      exact ih hrest (current ++ [sec]) (tks + tok sec) (by simp)

/-- When no section exceeds the budget, packing only regroups the sections. -/
theorem joinNl_packSections (tok : String → Nat) (chunkSize : Nat) (sections : List String)
    (hall : ∀ s ∈ sections, tok s ≤ chunkSize) :
    ∀ current tks, (current = [] → tks = 0) →
      joinNl (packSections tok chunkSize sections current tks) = joinNl (current ++ sections) := by
  induction sections with
  | nil =>
    intro current tks _
    cases current with
    | nil => simp [packSections]
    | cons c cs => simp [packSections, joinNl]
  | cons sec rest ih =>
    intro current tks hz
    have hsec : tok sec ≤ chunkSize := hall sec (by simp)
    have hrest : ∀ s ∈ rest, tok s ≤ chunkSize := fun s hs => hall s (by simp [hs])
    simp only [packSections]
    rw [if_neg (by omega)]
    by_cases hflush : tks + tok sec > chunkSize
    · rw [if_pos hflush]
      cases current with
      | nil => exact absurd hflush (by simp [hz rfl]; omega)
      | cons c cs =>
        have hne := packSections_ne_nil tok chunkSize rest hrest [sec] (tok sec) (by simp)
        rw [joinNl_cons_ne _ _ hne, ih hrest [sec] (tok sec) (by simp)]
        rw [joinNl_append (c :: cs) (sec :: rest) (by simp) (by simp)]
        simp
    · rw [if_neg hflush]
      rw [ih hrest (current ++ [sec]) (tks + tok sec) (by simp)]
      simp

theorem joinSp_cons_ne (x : String) (xs : List String) (h : xs ≠ []) :
    joinSp (x :: xs) = x ++ " " ++ joinSp xs := by
  cases xs with
  | nil => exact absurd rfl h
  | cons y ys => rfl

theorem joinSp_append_singleton (xs : List String) (w : String) (h : xs ≠ []) :
    joinSp (xs ++ [w]) = joinSp xs ++ " " ++ w := by
  induction xs with
  | nil => exact absurd rfl h
  | cons x xs ih =>
    cases xs with
    | nil => rfl
    | cons y ys =>
      rw [List.cons_append, joinSp_cons_ne x ((y :: ys) ++ [w]) (by simp),
        joinSp_cons_ne x (y :: ys) (by simp), ih (by simp)]
      simp [String.append_assoc]

theorem joinNl_append_singleton (xs : List String) (w : String) (h : xs ≠ []) :
    joinNl (xs ++ [w]) = joinNl xs ++ "\n" ++ w := by
  rw [joinNl_append xs [w] h (by simp)]
  rfl

theorem packWordsT_fst (tok : String → Nat) (cs : Nat) :
    ∀ words temp t,
      (packWordsT tok cs words temp t).map Prod.fst = packWords tok cs words temp t := by
  intro words
  induction words with
  | nil =>
    intro temp t
    by_cases h : temp.isEmpty <;> simp [packWordsT, packWords, h]
  | cons w ws ih =>
    intro temp t
    simp only [packWordsT, packWords]
    by_cases h1 : t + tok (w ++ " ") > cs
    · rw [if_pos h1, if_pos h1]
      by_cases h2 : temp.isEmpty
      · rw [if_pos h2, if_pos h2]; exact ih [w] _
      · rw [if_neg h2, if_neg h2]; simp [ih [w]]
    · rw [if_neg h1, if_neg h1]; exact ih (temp ++ [w]) _

theorem packSectionsT_fst (tok : String → Nat) (cs : Nat) :
    ∀ sections current t,
      (packSectionsT tok cs sections current t).map Prod.fst
        = packSections tok cs sections current t := by
  intro sections
  induction sections with
  | nil =>
    intro current t
    by_cases h : current.isEmpty <;> simp [packSectionsT, packSections, h]
  | cons sec rest ih =>
    intro current t
    simp only [packSectionsT, packSections]
    by_cases h1 : tok sec > cs
    · rw [if_pos h1, if_pos h1]
      simp [packWordsT_fst, ih current t]
    · rw [if_neg h1, if_neg h1]
      by_cases h2 : t + tok sec > cs
      · rw [if_pos h2, if_pos h2]; simp [ih [sec]]
      · rw [if_neg h2, if_neg h2]; exact ih (current ++ [sec]) _

theorem chunksOfT_fst (tok : String → Nat) (content : String) (cs : Nat) :
    (chunksOfT tok content cs).map Prod.fst = chunksOf tok content cs :=
  packSectionsT_fst tok cs (splitSections content) [] 0

/-- Budget behaviour of the oversized-section word fallback: every sub-chunk
is within budget, or is a single word of the word universe whose counted
form exceeds the budget; all sub-chunks are tagged as fallback output. -/
theorem packWordsT_bound (tok : String → Nat) (cs : Nat) (W0 : List String)
    (H2 : ∀ a w : String, tok (a ++ " " ++ w) ≤ tok a + tok (w ++ " "))
    (H3 : ∀ w : String, tok w ≤ tok (w ++ " ")) :
    ∀ words temp t,
      (∀ w ∈ words, w ∈ W0) →
      ((temp = [] ∧ t = 0) ∨
        (temp ≠ [] ∧ tok (joinSp temp) ≤ t ∧
          (t ≤ cs ∨ ∃ w ∈ W0, temp = [w] ∧ tok (w ++ " ") > cs))) →
      ∀ p ∈ packWordsT tok cs words temp t,
        p.2 = true ∧
          (tok p.1 ≤ cs ∨ (p.1 ∈ W0 ∧ tok (p.1 ++ " ") > cs)) := by
  intro words
  induction words with
  | nil =>
    intro temp t _ hinv p hp
    match temp, hinv with
    | [], .inl ⟨_, _⟩ => simp [packWordsT] at hp
    | temp, .inr ⟨hne, hle, hcase⟩ =>
      rw [packWordsT, if_neg (by simpa using hne)] at hp
      simp at hp
      subst hp
      refine ⟨rfl, ?_⟩
      cases hcase with
      | inl hcs => exact .inl (le_trans hle hcs)
      | inr hw =>
        obtain ⟨w, hw0, hw1, hw2⟩ := hw
        subst hw1
        exact .inr ⟨by simpa [joinSp] using hw0, by simpa [joinSp] using hw2⟩
  | cons w ws ih =>
    intro temp t hsub hinv p hp
    have hw0 : w ∈ W0 := hsub w (by simp)
    have hsub2 : ∀ x ∈ ws, x ∈ W0 := fun x hx => hsub x (by simp [hx])
    rw [packWordsT] at hp
    by_cases h1 : t + tok (w ++ " ") > cs
    · rw [if_pos h1] at hp
      have hinv2 : ([w] : List String) ≠ [] ∧ tok (joinSp [w]) ≤ tok (w ++ " ") ∧
          (tok (w ++ " ") ≤ cs ∨ ∃ x ∈ W0, [w] = [x] ∧ tok (x ++ " ") > cs) := by
        refine ⟨by simp, H3 w, ?_⟩
        by_cases hw : tok (w ++ " ") ≤ cs
        · exact .inl hw
        · exact .inr ⟨w, hw0, rfl, by omega⟩
      match temp, hinv with
      | [], .inl ⟨_, _⟩ =>
        rw [if_pos (by simp)] at hp
        exact ih [w] (tok (w ++ " ")) hsub2 (.inr hinv2) p hp
      | temp, .inr ⟨hne, hle, hcase⟩ =>
        rw [if_neg (by simpa using hne)] at hp
        rcases List.mem_cons.mp hp with hhead | htail
        · subst hhead
          refine ⟨rfl, ?_⟩
          cases hcase with
          | inl hcs => exact .inl (le_trans hle hcs)
          | inr hw =>
            obtain ⟨x, hx0, hx1, hx2⟩ := hw
            subst hx1
            exact .inr ⟨by simpa [joinSp] using hx0, by simpa [joinSp] using hx2⟩
        · exact ih [w] (tok (w ++ " ")) hsub2 (.inr hinv2) p htail
    · rw [if_neg h1] at hp
      have hinv2 : (temp ++ [w] : List String) ≠ [] ∧
          tok (joinSp (temp ++ [w])) ≤ t + tok (w ++ " ") ∧
          (t + tok (w ++ " ") ≤ cs ∨
            ∃ x ∈ W0, temp ++ [w] = [x] ∧ tok (x ++ " ") > cs) := by
        refine ⟨by simp, ?_, .inl (by omega)⟩
        match temp, hinv with
        | [], .inl ⟨_, ht⟩ =>
          subst ht
          simpa using H3 w
        | temp, .inr ⟨hne, hle, _⟩ =>
          rw [joinSp_append_singleton temp w hne]
          calc tok (joinSp temp ++ " " ++ w) ≤ tok (joinSp temp) + tok (w ++ " ") := H2 _ w
            _ ≤ t + tok (w ++ " ") := by omega
      exact ih (temp ++ [w]) (t + tok (w ++ " ")) hsub2 (.inr hinv2) p hp

/-- Budget behaviour of the packing loop: non-fallback chunks are within
budget; fallback chunks are within budget or are a single over-budget word
of one of the sections. -/
theorem packSectionsT_bound (tok : String → Nat) (cs : Nat) (SECS : List String)
    (H1 : ∀ a b : String, tok (a ++ "\n" ++ b) ≤ tok a + tok b)
    (H2 : ∀ a w : String, tok (a ++ " " ++ w) ≤ tok a + tok (w ++ " "))
    (H3 : ∀ w : String, tok w ≤ tok (w ++ " ")) :
    ∀ sections current t,
      (∀ s ∈ sections, s ∈ SECS) →
      ((current = [] ∧ t = 0) ∨ (current ≠ [] ∧ tok (joinNl current) ≤ t ∧ t ≤ cs)) →
      ∀ p ∈ packSectionsT tok cs sections current t,
        (p.2 = false → tok p.1 ≤ cs) ∧
        (p.2 = true → tok p.1 ≤ cs ∨
          ∃ sec ∈ SECS, p.1 ∈ splitWords sec ∧ tok (p.1 ++ " ") > cs) := by
  intro sections
  induction sections with
  | nil =>
    intro current t _ hinv p hp
    match current, hinv with
    | [], .inl ⟨_, _⟩ => simp [packSectionsT] at hp
    | current, .inr ⟨hne, hle, hcs⟩ =>
      rw [packSectionsT, if_neg (by simpa using hne)] at hp
      simp at hp
      subst hp
      constructor
      · intro _; exact le_trans hle hcs
      · intro htag; exact absurd htag (by simp)
  | cons sec rest ih =>
    intro current t hsub hinv p hp
    have hsec : sec ∈ SECS := hsub sec (by simp)
    have hsub2 : ∀ s ∈ rest, s ∈ SECS := fun s hs => hsub s (by simp [hs])
    rw [packSectionsT] at hp
    by_cases hov : tok sec > cs
    · rw [if_pos hov] at hp
      rcases List.mem_append.mp hp with hfb | hrest
      · have := packWordsT_bound tok cs (splitWords sec) H2 H3
          (splitWords sec) [] 0 (fun w hw => hw) (.inl ⟨rfl, rfl⟩) p hfb
        obtain ⟨htag, hbound⟩ := this
        constructor
        · intro hfalse; rw [htag] at hfalse; exact absurd hfalse (by simp)
        · intro _
          cases hbound with
          | inl h => exact .inl h
          | inr h => exact .inr ⟨sec, hsec, h.1, h.2⟩
      · exact ih current t hsub2 hinv p hrest
    · rw [if_neg hov] at hp
      by_cases hflush : t + tok sec > cs
      · rw [if_pos hflush] at hp
        match current, hinv with
        | [], .inl ⟨_, ht⟩ => exact absurd hflush (by subst ht; omega)
        | current, .inr ⟨hne, hle, hcs⟩ =>
          rcases List.mem_cons.mp hp with hhead | htail
          · subst hhead
            exact ⟨fun _ => by simp; omega, fun htag => absurd htag (by simp)⟩
          · exact ih [sec] (tok sec) hsub2
              (.inr ⟨by simp, le_of_eq (by simp [joinNl]), by omega⟩) p htail
      · rw [if_neg hflush] at hp
        have hinv2 : (current ++ [sec] : List String) ≠ [] ∧
            tok (joinNl (current ++ [sec])) ≤ t + tok sec ∧ t + tok sec ≤ cs := by
          refine ⟨by simp, ?_, by omega⟩
          match current, hinv with
          | [], .inl ⟨_, ht⟩ => subst ht; simp [joinNl]
          | current, .inr ⟨hne, hle, _⟩ =>
            rw [joinNl_append_singleton current sec hne]
            calc tok (joinNl current ++ "\n" ++ sec) ≤ tok (joinNl current) + tok sec := H1 _ _
              _ ≤ t + tok sec := by omega
        exact ih (current ++ [sec]) (t + tok sec) hsub2 (.inr hinv2) p hp

theorem countTokensGo_append_ws (c : Char) (hc : isWsC c = true) (ys : List Char) :
    ∀ (xs : List Char) (b : Bool),
      countTokensGo (xs ++ c :: ys) b = countTokensGo xs b + countTokensGo ys false := by
  intro xs
  induction xs with
  | nil => intro b; simp [countTokensGo, hc]
  | cons x xs ih =>
    intro b
    by_cases hx : isWsC x
    · simp [countTokensGo, hx, ih]
    · simp [countTokensGo, hx, ih]
      omega

theorem approxTokens_nl (a b : String) :
    approxTokens (a ++ "\n" ++ b) = approxTokens a + approxTokens b := by
  have : (a ++ "\n" ++ b).data = a.data ++ '\n' :: b.data := by
    simp [String.data_append]
  simp [approxTokens, this, countTokensGo_append_ws '\n' (by decide)]

theorem approxTokens_sp (a b : String) :
    approxTokens (a ++ " " ++ b) = approxTokens a + approxTokens b := by
  have : (a ++ " " ++ b).data = a.data ++ ' ' :: b.data := by
    simp [String.data_append]
  simp [approxTokens, this, countTokensGo_append_ws ' ' (by decide)]

theorem approxTokens_trail (w : String) : approxTokens (w ++ " ") = approxTokens w := by
  have : (w ++ " ").data = w.data ++ ' ' :: [] := by simp [String.data_append]
  simp [approxTokens, this, countTokensGo_append_ws ' ' (by decide), countTokensGo]

/-- C5, counterexample: chunking is neither lossless nor order-preserving.
On the single-section text `"aa bb"` with token budget 1, the
oversized-section fallback splits on whitespace, and the concatenation of
the returned chunks is `"aabb"`, not the original text — the interior
whitespace is lost. And on `"x\n[y z"` with budget 1, the fallback emits
the oversized second section's sub-chunks immediately, before the pending
chunk holding the document's first line is flushed, so the chunk with the
first line comes last: the output is `["[y", "z", "x"]`, not in document
order. -/
theorem c5_counterexample :
    (chunksOf approxTokens "aa bb" 1 = ["aa", "bb"] ∧
     String.join (chunksOf approxTokens "aa bb" 1) ≠ "aa bb") ∧
    chunksOf approxTokens "x\n[y z" 1 = ["[y", "z", "x"] := by
  refine ⟨⟨by decide, by decide⟩, by decide⟩

/-- C5 (amended): when no section's token count exceeds the budget (so the
oversized-section fallback is never taken), the chunks — joined back with
single newlines — reproduce exactly the original text's line sequence
joined with newlines; in particular the content then appears in original
document order. With an oversized section neither property holds: the
fallback collapses interior whitespace, the newline separating two chunks
is dropped, and the fallback appends its sub-chunks to the output before
the pending chunk holding earlier sections is flushed, breaking document
order. -/
theorem c5_chunks_lossless_amended (tok : String → Nat) (content : String) (chunkSize : Nat)
    (h : ∀ sec ∈ splitSections content, tok sec ≤ chunkSize) :
    joinNl (chunksOf tok content chunkSize) = joinNl (splitLines content) := by
  have h2 := joinNl_packSections tok chunkSize (splitSections content) h [] 0 (fun _ => rfl)
  have h3 := joinNl_sectionsGo (splitLines content) []
  unfold chunksOf
  rw [h2]
  simpa [splitSections] using h3

theorem c5_chunks_lossless_witness :
    joinNl (chunksOf approxTokens "x\n# h\ny" 10) = joinNl (splitLines "x\n# h\ny") :=
  c5_chunks_lossless_amended approxTokens "x\n# h\ny" 10 (by decide)

/-- C6, counterexample: with token budget 0 and content `"a"`, the single
section is oversized (1 token > 0), the fallback packs the lone word `"a"`
into a sub-chunk whose token count is 1 > 0 — a fallback sub-chunk that
does not respect the budget, contradicting the claim that every fallback
sub-chunk stays within the budget. -/
theorem c6_counterexample :
    chunksOfT approxTokens "a" 0 = [("a", true)] ∧ approxTokens "a" > 0 := by
  constructor
  · decide
  · decide

/-- C6 (amended): for any tokenizer that is subadditive across the
newline/space joins used by the packer, every chunk not produced by the
oversized-section fallback has token count ≤ the budget, and every fallback
sub-chunk either fits the budget or is a single word of an oversized
section whose counted form (`word + " "`) exceeds the budget on its own.
The untagged chunk list of `chunk_tool_output` is the projection of the
tagged one. -/
theorem c6_chunk_budget_amended (tok : String → Nat) (chunkSize : Nat)
    (H1 : ∀ a b : String, tok (a ++ "\n" ++ b) ≤ tok a + tok b)
    (H2 : ∀ a w : String, tok (a ++ " " ++ w) ≤ tok a + tok (w ++ " "))
    (H3 : ∀ w : String, tok w ≤ tok (w ++ " "))
    (content : String) :
    (chunksOfT tok content chunkSize).map Prod.fst = chunksOf tok content chunkSize ∧
    ∀ p ∈ chunksOfT tok content chunkSize,
      (p.2 = false → tok p.1 ≤ chunkSize) ∧
      (p.2 = true → tok p.1 ≤ chunkSize ∨
        ∃ sec ∈ splitSections content, p.1 ∈ splitWords sec ∧ tok (p.1 ++ " ") > chunkSize) :=
  ⟨chunksOfT_fst tok content chunkSize,
   packSectionsT_bound tok chunkSize (splitSections content) H1 H2 H3
     (splitSections content) [] 0 (fun _ hs => hs) (.inl ⟨rfl, rfl⟩)⟩

theorem c6_chunk_budget_witness :
    (chunksOfT approxTokens "aa bb" 1).map Prod.fst = chunksOf approxTokens "aa bb" 1 ∧
    ∀ p ∈ chunksOfT approxTokens "aa bb" 1,
      (p.2 = false → approxTokens p.1 ≤ 1) ∧
      (p.2 = true → approxTokens p.1 ≤ 1 ∨
        ∃ sec ∈ splitSections "aa bb", p.1 ∈ splitWords sec ∧
          approxTokens (p.1 ++ " ") > 1) :=
  c6_chunk_budget_amended approxTokens 1
    (fun a b => le_of_eq (approxTokens_nl a b))
    (fun a w => by rw [approxTokens_sp, approxTokens_trail])
    (fun w => le_of_eq (approxTokens_trail w).symm)
    "aa bb"

/-! ## Python value operations used by the agents and the orchestrator -/

/-- Python exceptions that the embedded code can raise. -/
inductive PyErr where
  | jsonDecode (m : String)
  | keyError (k : String)
  | typeError (m : String)
  | valueError (m : String)
  | attributeError (m : String)
  | indexError (m : String)
  deriving DecidableEq

/-- `str(e)` for an exception (for a `KeyError` Python shows the quoted key). -/
def PyErr.msg : PyErr → String
  | .jsonDecode m => m
  | .keyError k => "\x27" ++ k ++ "\x27"
  | .typeError m => m
  | .valueError m => m
  | .attributeError m => m
  | .indexError m => m

def pyTruthy : Val → Bool
  | .null => false
  | .bool b => b
  | .str s => !s.data.isEmpty
  | .arr xs => !xs.isEmpty
  | .obj kvs => !kvs.isEmpty

def lookupStr : List (String × Val) → String → Option Val
  | [], _ => none
  | (k, v) :: kvs, key => if k = key then some v else lookupStr kvs key

/-- Python `d[key] = v` on a string-keyed dict (overwrite or append). -/
def dictSet : List (String × Val) → String → Val → List (String × Val)
  | [], key, v => [(key, v)]
  | (k, w) :: kvs, key, v =>
    if k = key then (key, v) :: kvs else (k, w) :: dictSet kvs key v

/-- Python subscript `container[key]` with a string key. -/
def getItem : Val → String → Except PyErr Val
  | .obj kvs, key =>
    match lookupStr kvs key with
    | some v => .ok v
    | none => .error (.keyError key)
  | .arr _, _ => .error (.typeError "list indices must be integers or slices, not str")
  | .str _, _ => .error (.typeError "string indices must be integers")
  | .null, _ => .error (.typeError "\x27NoneType\x27 object is not subscriptable")
  | .bool _, _ => .error (.typeError "\x27bool\x27 object is not subscriptable")

def isSubstr : List Char → List Char → Bool
  | n, [] => n.isEmpty
  | n, c :: t => n.isPrefixOf (c :: t) || isSubstr n t

/-- Python `key in container` for a string `key`. -/
def pyContainsStr : Val → String → Except PyErr Bool
  | .obj kvs, key => .ok (lookupStr kvs key).isSome
  | .arr xs, key => .ok (xs.contains (.str key))
  | .str s, key => .ok (isSubstr key.data s.data)
  | .null, _ => .error (.typeError "argument of type \x27NoneType\x27 is not iterable")
  | .bool _, _ => .error (.typeError "argument of type \x27bool\x27 is not iterable")

/-- Python iteration `for x in v`. -/
def pyIter : Val → Except PyErr (List Val)
  | .arr xs => .ok xs
  | .str s => .ok (s.data.map (fun ch => .str (String.mk [ch])))
  | .obj kvs => .ok (kvs.map (fun kv => .str kv.1))
  | .null => .error (.typeError "\x27NoneType\x27 object is not iterable")
  | .bool _ => .error (.typeError "\x27bool\x27 object is not iterable")

/-- Python `d.get(key, default)`. -/
def pyGet : Val → String → Val → Except PyErr Val
  | .obj kvs, key, dflt => .ok ((lookupStr kvs key).getD dflt)
  | .null, _, _ => .error (.attributeError "\x27NoneType\x27 object has no attribute \x27get\x27")
  | .bool _, _, _ => .error (.attributeError "\x27bool\x27 object has no attribute \x27get\x27")
  | .str _, _, _ => .error (.attributeError "\x27str\x27 object has no attribute \x27get\x27")
  | .arr _, _, _ => .error (.attributeError "\x27list\x27 object has no attribute \x27get\x27")

def pyLen : Val → Except PyErr Nat
  | .arr xs => .ok xs.length
  | .str s => .ok s.length
  | .obj kvs => .ok kvs.length
  | .null => .error (.typeError "object of type \x27NoneType\x27 has no len()")
  | .bool _ => .error (.typeError "object of type \x27bool\x27 has no len()")

def pyIndex : Val → Nat → Except PyErr Val
  | .arr xs, i =>
    match xs.get? i with
    | some v => .ok v
    | none => .error (.indexError "list index out of range")
  | .str s, i =>
    match s.data.get? i with
    | some ch => .ok (.str (String.mk [ch]))
    | none => .error (.indexError "string index out of range")
  | _, _ => .error (.typeError "object is not subscriptable")

/-- Python slice `v[:n]`. -/
def pySlice : Val → Nat → Except PyErr Val
  | .str s, n => .ok (.str (String.mk (s.data.take n)))
  | .arr xs, n => .ok (.arr (xs.take n))
  | _, _ => .error (.typeError "object is not subscriptable")

/-- `str(v)` (for f-string interpolation; containers use their JSON dump as
a close stand-in for Python `repr`). -/
def pystr : Val → String
  | .null => "None"
  | .bool true => "True"
  | .bool false => "False"
  | .str s => s
  | v => dumpJson v

/-! ## External collaborators and invocation counters

`Collab` holds the outcome streams of the external services (`google_search_call`,
`scrape_urls_call`, and the two OpenAI clients), indexed by how many calls to
that service have happened so far; `World` holds the counters. -/

structure Collab where
  gsearch : Nat → Val → Except String Val
  scrape : Nat → List Val → Except String Val
  llm : Nat → String → Except String String
  vllm : Nat → String → Except String String

structure World where
  g : Nat
  s : Nat
  l : Nat
  v : Nat
  deriving DecidableEq

/-! ## RetrievalAgent (`retrieval.py`)

`self.cache` is one shared dict for both methods, keyed by the raw
query/URL value. -/

def cacheLookup : List (Val × Val) → Val → Option Val
  | [], _ => none
  | (k, v) :: kvs, key => if k = key then some v else cacheLookup kvs key

def cacheSet : List (Val × Val) → Val → Val → List (Val × Val)
  | [], key, v => [(key, v)]
  | (k, w) :: kvs, key, v =>
    if k = key then (key, v) :: kvs else (k, w) :: cacheSet kvs key v

/-- `RetrievalAgent.search` (lines 13-37 of `retrieval.py`): memoized Google
search; a collaborator failure is downgraded to an error-shaped result
record, which is also cached. -/
def search (c : Collab) (cache : List (Val × Val)) (w : World) (q : Val) :
    Val × List (Val × Val) × World :=
  match cacheLookup cache q with
  | some v => (v, cache, w)
  | none =>
    let w2 := { w with g := w.g + 1 }
    match c.gsearch w.g q with
    | .ok results => (results, cacheSet cache q results, w2)
    | .error e =>
      let errResult := Val.arr [Val.obj
        [("title", .str "[Error]"), ("link", .str ""),
         ("snippet", .str ("No data found for \x27" ++ pystr q ++ "\x27 due to error: " ++ e))]]
      (errResult, cacheSet cache q errResult, w2)

/-- The body of `retrieve_webpage`'s `try` block after the scrape call
(lines 50-59 of `retrieval.py`); any raise here is caught by the handler. -/
def scrapeContent (response : Val) (url : Val) : Except PyErr Val := do
  if pyTruthy response then
    let hasData ← pyContainsStr response "data"
    if hasData then
      let data ← getItem response "data"
      let n ← pyLen data
      if n > 0 then
        let first ← pyIndex data 0
        let content ← pyGet first "markdown" (.str "")
        if pyTruthy content then pure content
        else pure (.str ("[No data found from " ++ pystr url ++ "]"))
      else pure (.str ("[No content retrieved from " ++ pystr url ++ "]"))
    else pure (.str ("[No content retrieved from " ++ pystr url ++ "]"))
  else pure (.str ("[No content retrieved from " ++ pystr url ++ "]"))

/-- `RetrievalAgent.retrieve_webpage` (lines 39-69 of `retrieval.py`). -/
def retrieve_webpage (c : Collab) (cache : List (Val × Val)) (w : World) (url : Val) :
    Val × List (Val × Val) × World :=
  match cacheLookup cache url with
  | some v => (v, cache, w)
  | none =>
    let w2 := { w with s := w.s + 1 }
    match c.scrape w.s [url] with
    | .error e =>
      let content := Val.str ("[Error retrieving " ++ pystr url ++ ": " ++ e ++ "]")
      (content, cacheSet cache url content, w2)
    | .ok response =>
      match scrapeContent response url with
      | .ok content => (content, cacheSet cache url content, w2)
      | .error e =>
        let content := Val.str ("[Error retrieving " ++ pystr url ++ ": " ++ e.msg ++ "]")
        (content, cacheSet cache url content, w2)

/-! ## SynthesisAgent (`synthesis.py`) -/

/-- One search-result line `- {title} ({link})\n  {snippet}\n`; the f-string
is evaluated before anything is appended. -/
def fmtItem (item : Val) : Except PyErr String := do
  let t ← getItem item "title"
  let l ← getItem item "link"
  let s ← getItem item "snippet"
  pure ("- " ++ pystr t ++ " (" ++ pystr l ++ ")\n  " ++ pystr s ++ "\n")

/-- The items loop: text appended so far, and the error (if any) that
stopped it. -/
def fmtItems : List Val → String × Option PyErr
  | [] => ("", none)
  | item :: rest =>
    match fmtItem item with
    | .ok line =>
      let (acc, e) := fmtItems rest
      (line ++ acc, e)
    | .error e => ("", some e)

/-- One iteration of the data-formatting loop of `synthesize` (lines 29-44
of `synthesis.py`): the text this retrieval result contributes to
`data_str`. A raise inside the loop body is caught (`continue`), keeping
whatever was appended before it. -/
def fmtOne (idx : Nat) (r : Val) : String :=
  match getItem r "type" with
  | .error _ => ""
  | .ok ty =>
    if ty = .str "search" then
      match getItem r "query" with
      | .error _ => ""
      | .ok q =>
        let header := "[Source " ++ toString idx ++ "] Search Results for \x27"
          ++ pystr q ++ "\x27:\n"
        match (do
            let res ← getItem r "results"
            let items ← getItem res "items"
            pyIter items : Except PyErr (List Val)) with
        | .error _ => header
        | .ok xs =>
          match fmtItems xs with
          | (body, some _) => header ++ body
          | (body, none) => header ++ body ++ "\n"
    else if ty = .str "scrape" then
      match (do
          let u ← getItem r "url"
          let content ← getItem r "content"
          let cut ← pySlice content 1000
          pure (u, cut) : Except PyErr (Val × Val)) with
      | .error _ => ""
      | .ok (u, cut) =>
        "[Source " ++ toString idx ++ "] Scraped Content from " ++ pystr u ++ ":\n"
          ++ pystr cut ++ "...\n\n"
    else ""

def fmtAll : Nat → List Val → String
  | _, [] => ""
  | idx, r :: rest => fmtOne idx r ++ fmtAll (idx + 1) rest

/-- The synthesis prompt (lines 49-59 of `synthesis.py`). -/
def synthPrompt (query data_str : String) (iteration : Nat) : String :=
  "This is synthesis iteration " ++ toString iteration
    ++ ". If iteration >= 3, generate the best possible summary with available data, noting any missing information.\n"
    ++ "Based on the following information, provide a detailed summary for the query: \x27"
    ++ query ++ "\x27\n\n"
    ++ "Data:\n" ++ data_str ++ "\n"
    ++ "Respond with a JSON object containing:\n"
    ++ "- \x27status\x27: (\x27complete\x27 or \x27incomplete\x27)\n"
    ++ "- \x27summary\x27: (formatted in Markdown)\n"
    ++ "- \x27additional_tasks\x27: (array of objects with \x27tool\x27 and \x27parameters\x27 if status is \x27incomplete\x27)\n\n"
    ++ "For \x27complete\x27, format the summary in Markdown with clear headings and bullet points. Include citations [1], [2], etc.\n"
    ++ "For \x27incomplete\x27, include additional_tasks for more information needed."

/-- The structured result `synthesize` returns when its `try` block raises
(lines 78-82 of `synthesis.py`). -/
def errorResponse (e : String) : Val :=
  .obj [("status", .str "complete"),
        ("summary", .str ("Error during synthesis: " ++ e)),
        ("additional_tasks", .arr [])]

/-- `SynthesisAgent.synthesize` (lines 12-83 of `synthesis.py`): format the
retrieval data, call the OpenAI collaborator, and re-dump its parsed JSON;
every failure is caught and turned into `errorResponse`. -/
def synthesize (c : Collab) (w : World) (query : String) (retrieval_results : List Val)
    (iteration : Nat) : String × World :=
  let data_str := fmtAll 1 retrieval_results
  let prompt := synthPrompt query data_str iteration
  let w2 := { w with l := w.l + 1 }
  match c.llm w.l prompt with
  | .ok content =>
    match parseJson content with
    | .ok v => (dumpJson v, w2)
    | .error m => (dumpJson (errorResponse m), w2)
  | .error e => (dumpJson (errorResponse e), w2)

/-! ## ValidationAgent (`validation.py`)

The `tiktoken` encoding is external; tokens are modelled as characters. -/

def MAX_TOKENS_PER_PASS : Nat := 100000

def chunkTokens : List Char → List (List Char)
  | [] => []
  | c :: rest =>
    (c :: rest).take MAX_TOKENS_PER_PASS
      :: chunkTokens ((c :: rest).drop MAX_TOKENS_PER_PASS)
termination_by l => l.length
decreasing_by simp [MAX_TOKENS_PER_PASS]; omega

def validationPrompt (i : Nat) (chunk : String) : String :=
  "Check the following summary chunk for factual claims without citations. "
    ++ "A factual claim is any statement about players, teams, or ages that isn\x27t "
    ++ "general knowledge (e.g., \x27The sky is blue\x27). Each claim should have a citation "
    ++ "like [n]. List any uncited claims in Markdown. If all claims are cited, say \x27All claims cited.\x27\n\n"
    ++ "Chunk " ++ toString i ++ ":\n" ++ chunk

def validateChunks (c : Collab) : Nat → Nat → List String → List String
  | _, _, [] => []
  | wv, i, chunk :: rest =>
    let report :=
      match c.vllm wv (validationPrompt i chunk) with
      | .ok r => "### Chunk " ++ toString i ++ " Validation\n" ++ r
      | .error e => "### Chunk " ++ toString i ++ " Validation\nError: " ++ e
    report :: validateChunks c (wv + 1) (i + 1) rest

/-- The string `"\n\n".join(xs)`. -/
def joinNlNl : List String → String
  | [] => ""
  | [x] => x
  | x :: xs => x ++ "\n\n" ++ joinNlNl xs

/-- `ValidationAgent.validate` (lines 10-60 of `validation.py`). -/
def validate (c : Collab) (w : World) (summary : String) (sources : String) :
    String × World :=
  let chunks := (chunkTokens summary.data).map String.mk
  let reports := validateChunks c w.v 1 chunks
  (joinNlNl reports, { w with v := w.v + chunks.length })

/-! ## Task and Orchestrator (`orchestrator.py`)

Python `Task` objects are mutable and aliased from the registry and the
queue; the embedding stores them in the heap `Orch.heap`, with the queue
and the registry holding references (indices) into it. A freshly
constructed object gets the next free index, matching object allocation. -/

structure Task where
  task_id : String
  task_type : String
  params : List (String × Val)
  dependencies : List String
  status : String
  result : Val
  deriving DecidableEq

/-- `Task.__init__`: status `pending`, no result. -/
def Task.make (id ty : String) (params : List (String × Val)) (deps : List String) : Task :=
  ⟨id, ty, params, deps, "pending", .null⟩

structure Orch where
  heap : List Task
  task_queue : List Nat
  tasks : List (String × Nat)
  synthesis_iteration : Nat
  rcache : List (Val × Val)
  deriving DecidableEq

def Orch.empty : Orch := ⟨[], [], [], 0, []⟩

def lookupNat : List (String × Nat) → String → Option Nat
  | [], _ => none
  | (k, v) :: kvs, key => if k = key then some v else lookupNat kvs key

def setAssocNat : List (String × Nat) → String → Nat → List (String × Nat)
  | [], key, v => [(key, v)]
  | (k, w) :: kvs, key, v =>
    if k = key then (key, v) :: kvs else (k, w) :: setAssocNat kvs key v

def heapGet (s : Orch) (ref : Nat) : Option Task := s.heap.get? ref

def heapSet (s : Orch) (ref : Nat) (t : Task) : Orch := { s with heap := s.heap.set ref t }

/-- `self.tasks.get(id)` — registry lookup, dereferenced through the heap. -/
def regGet (s : Orch) (id : String) : Option Task :=
  match lookupNat s.tasks id with
  | some ref => heapGet s ref
  | none => none

/-- `Orchestrator.add_task` (lines 54-58): append to the queue and (over)write
the registry entry. There is no duplicate-id check. -/
def addTask (s : Orch) (t : Task) : Orch :=
  { s with
    heap := s.heap ++ [t],
    task_queue := s.task_queue ++ [s.heap.length],
    tasks := setAssocNat s.tasks t.task_id s.heap.length }

/-- `Orchestrator.can_execute` (lines 133-139). -/
def canExecute (s : Orch) (t : Task) : Bool :=
  t.dependencies.all (fun d =>
    match regGet s d with
    | some u => u.status = "completed"
    | none => false)

/-- Trace events recorded by the embedded run loop. -/
inductive Event where
  | started (pre : Orch) (t : Task)
  | statusSet (ref : Nat) (old new : String)
  | spawned (id : String) (iterAt : Nat)
  deriving DecidableEq

def Val.isObjB : Val → Bool
  | .obj _ => true
  | _ => false

/-- `json.loads(task.result)`. Only an invalid JSON string raises
`json.JSONDecodeError`; a non-string argument raises `TypeError`. -/
def loadsVal : Val → Except PyErr Val
  | .str r =>
    match parseJson r with
    | .ok v => .ok v
    | .error m => .error (.jsonDecode m)
  | _ => .error (.typeError "the JSON object must be str, bytes or bytearray")

/-- The retrieval-results list comprehension of the synthesis branch
(lines 170-174): `self.tasks[dep_id]` raises `KeyError` on an unregistered
dependency; only completed dependencies contribute their result. -/
def collectDeps (s : Orch) : List String → Except PyErr (List Val)
  | [] => .ok []
  | d :: ds =>
    match regGet s d with
    | none => .error (.keyError d)
    | some u => do
      let rest ← collectDeps s ds
      if u.status = "completed" then pure (u.result :: rest) else pure rest

/-- The `try` body of `Orchestrator.execute_task` (lines 146-189), returning
the value assigned to `task.result`, with agent/cache state threaded. -/
def executeTaskBody (c : Collab) (s : Orch) (w : World) (task : Task) :
    Except PyErr Val × Orch × World :=
  match task.task_type with
  | "retrieval" =>
    (match lookupStr task.params "query" with
     | some q =>
       let (results, cache2, w2) := search c s.rcache w q
       (.ok (.obj [("type", .str "search"), ("query", q), ("results", results)]),
        { s with rcache := cache2 }, w2)
     | none =>
       match lookupStr task.params "url" with
       | some u =>
         let (content, cache2, w2) := retrieve_webpage c s.rcache w u
         (.ok (.obj [("type", .str "scrape"), ("url", u), ("content", content)]),
          { s with rcache := cache2 }, w2)
       | none => (.error (.valueError "Invalid retrieval parameters"), s, w))
  | "synthesis" =>
    (match collectDeps s task.dependencies with
     | .error e => (.error e, s, w)
     | .ok retrieval_results =>
       let s2 := { s with synthesis_iteration := s.synthesis_iteration + 1 }
       match lookupStr task.params "query" with
       | none => (.error (.keyError "query"), s2, w)
       | some qv =>
         let (r, w2) := synthesize c w (pystr qv) retrieval_results s2.synthesis_iteration
         (.ok (.str r), s2, w2))
  | "validation" =>
    (match lookupStr task.params "synthesis_task_id" with
     | none => (.error (.keyError "synthesis_task_id"), s, w)
     | some sidv =>
       match sidv with
       | .str sid =>
         (match regGet s sid with
          | none => (.error (.keyError sid), s, w)
          | some st =>
            match loadsVal st.result with
            | .error e => (.error e, s, w)
            | .ok out =>
              match pyGet out "summary" (.str "") with
              | .error e => (.error e, s, w)
              | .ok sv =>
                match sv with
                | .str summary =>
                  let (rep, w2) := validate c w summary ""
                  (.ok (.str rep), s, w2)
                | _ => (.error (.typeError "summary must be a string"), s, w))
       | _ => (.error (.keyError (pystr sidv)), s, w))
  | other => (.error (.valueError ("No agent found for task type " ++ other)), s, w)

/-- `Orchestrator.execute_task` (lines 141-197): mark in-progress, run the
body, and record `completed` with the result or `failed` with the error
text; every exception from the body is caught here. -/
def executeTask (c : Collab) (s : Orch) (w : World) (ref : Nat) :
    Orch × World × List Event :=
  match heapGet s ref with
  | none => (s, w, [])
  | some task =>
    let t1 := { task with status := "in_progress" }
    let s1 := heapSet s ref t1
    let evs := [Event.started s task, Event.statusSet ref task.status "in_progress"]
    let (res, s2, w2) := executeTaskBody c s1 w t1
    match res with
    | .ok v =>
      (heapSet s2 ref { t1 with result := v, status := "completed" }, w2,
       evs ++ [Event.statusSet ref "in_progress" "completed"])
    | .error e =>
      (heapSet s2 ref { t1 with result := .str ("[Error: " ++ e.msg ++ "]"), status := "failed" },
       w2, evs ++ [Event.statusSet ref "in_progress" "failed"])

/-- Spawning of retrieval tasks for a `scrape_urls` entry (lines 91-100). -/
def spawnUrls (s : Orch) : List Val → Orch × List Event
  | [] => (s, [])
  | u :: us =>
    let tid := "retrieval_url_" ++ toString s.tasks.length
    let s2 := addTask s (Task.make tid "retrieval" [("url", u)] [])
    let (s3, evs) := spawnUrls s2 us
    (s3, Event.spawned tid s.synthesis_iteration :: evs)

/-- Handling of one `additional_tasks` entry (lines 84-110). -/
def spawnEntry (s : Orch) (entry : Val) : Except PyErr Unit × Orch × List Event :=
  match entry with
  | .obj kvs =>
    let tool := (lookupStr kvs "tool").getD .null
    let parameters := (lookupStr kvs "parameters").getD (.obj [])
    if tool = .str "scrape_urls" then
      match pyContainsStr parameters "urls" with
      | .error e => (.error e, s, [])
      | .ok true =>
        (match getItem parameters "urls" with
         | .error e => (.error e, s, [])
         | .ok urlsv =>
           match pyIter urlsv with
           | .error e => (.error e, s, [])
           | .ok urls =>
             let (s2, evs) := spawnUrls s urls
             (.ok (), s2, evs))
      | .ok false => (.ok (), s, [])
    else if tool = .str "google_search" then
      match pyContainsStr parameters "q" with
      | .error e => (.error e, s, [])
      | .ok true =>
        (match getItem parameters "q" with
         | .error e => (.error e, s, [])
         | .ok qv =>
           let tid := "retrieval_search_" ++ toString s.tasks.length
           (.ok (), addTask s (Task.make tid "retrieval" [("query", qv)] []),
            [Event.spawned tid s.synthesis_iteration]))
      | .ok false => (.ok (), s, [])
    else (.ok (), s, [])
  | _ => (.ok (), s, [])

def spawnEntries (s : Orch) : List Val → Except PyErr Unit × Orch × List Event
  | [] => (.ok (), s, [])
  | e :: es =>
    match spawnEntry s e with
    | (.ok _, s2, evs) =>
      let (r, s3, evs2) := spawnEntries s2 es
      (r, s3, evs ++ evs2)
    | (.error err, s2, evs) => (.error err, s2, evs)

/-- `self.tasks.values()` in registry (insertion) order. -/
def regValues (s : Orch) : List Task := s.tasks.filterMap (fun kv => heapGet s kv.2)

/-- The `additional_tasks` handling of the replanning block (lines 78-110):
membership test, isinstance list check, and the per-entry spawning loop. -/
def spawnAdditional (s : Orch) (out : Val) : Except PyErr Unit × Orch × List Event :=
  match pyContainsStr out "additional_tasks" with
  | .error e => (.error e, s, [])
  | .ok has =>
    if has then
      match getItem out "additional_tasks" with
      | .error e => (.error e, s, [])
      | .ok av =>
        (match av with
         | .arr entries => spawnEntries s entries
         | _ => (.ok (), s, []))
    else (.ok (), s, [])

/-- The `try` body of the replanning block (lines 71-124): parse the
completed synthesis result, and when it reports `incomplete` below the
iteration cap, spawn follow-up retrieval tasks and a new synthesis task
depending on every retrieval task registered so far. -/
def replanInner (s : Orch) (task : Task) : Except PyErr Unit × Orch × List Event :=
  match loadsVal task.result with
  | .error e => (.error e, s, [])
  | .ok out =>
    match getItem out "status" with
    | .error e => (.error e, s, [])
    | .ok st =>
      if st = Val.str "incomplete" ∧ s.synthesis_iteration < 8 then
        match spawnAdditional s out with
        | (.error e, s2, evs) => (.error e, s2, evs)
        | (.ok _, s2, evs) =>
          let all_retrieval_ids :=
            ((regValues s2).filter (fun t => t.task_type = "retrieval")).map
              (fun t => t.task_id)
          match lookupStr task.params "query" with
          | none => (.error (.keyError "query"), s2, evs)
          | some qv =>
            let tid := "synthesis_" ++ toString s2.tasks.length
            (.ok (), addTask s2 (Task.make tid "synthesis" [("query", qv)] all_retrieval_ids),
             evs ++ [Event.spawned tid s2.synthesis_iteration])
      else (.ok (), s, [])

/-- The replanning block with its `except json.JSONDecodeError` handler
(lines 125-128): only a JSON decode failure is downgraded to a `failed`
status; any other exception propagates. -/
def replan (s : Orch) (ref : Nat) : Except PyErr Unit × Orch × List Event :=
  match heapGet s ref with
  | none => (.ok (), s, [])
  | some task =>
    match replanInner s task with
    | (.error (.jsonDecode _), s2, evs) =>
      (match heapGet s2 ref with
       | none => (.ok (), s2, evs)
       | some t2 =>
         (.ok (),
          heapSet s2 ref
            { t2 with
              status := "failed",
              result := .str "[Error: Invalid synthesis output format]" },
          evs ++ [Event.statusSet ref t2.status "failed"]))
    | other => other

/-- `Orchestrator.execute_tasks` (lines 60-131), with fuel bounding the
number of loop iterations (the Python loop can requeue forever). The
`on_task_start` observer has no effect on scheduling and is omitted. -/
def execute_tasks (c : Collab) : Nat → Orch → World →
    Except PyErr Unit × Orch × World × List Event
  | 0, s, w => (.ok (), s, w, [])
  | Nat.succ fuel, s, w =>
    match s.task_queue with
    | [] => (.ok (), s, w, [])
    | ref :: rest =>
      let s0 := { s with task_queue := rest }
      match heapGet s0 ref with
      | none => execute_tasks c fuel s0 w
      | some task =>
        if canExecute s0 task then
          let (s1, w1, evs1) := executeTask c s0 w ref
          let st1 := match heapGet s1 ref with
            | some t => t.status
            | none => ""
          if task.task_type = "synthesis" ∧ st1 = "completed" then
            match replan s1 ref with
            | (.ok _, s2, evs2) =>
              let (r, s3, w3, evs3) := execute_tasks c fuel s2 w1
              (r, s3, w3, evs1 ++ evs2 ++ evs3)
            | (.error e, s2, evs2) => (.error e, s2, w1, evs1 ++ evs2)
          else
            let (r, s3, w3, evs3) := execute_tasks c fuel s1 w1
            (r, s3, w3, evs1 ++ evs3)
        else
          execute_tasks c fuel { s0 with task_queue := rest ++ [ref] } w

instance {ε α : Type} [DecidableEq ε] [DecidableEq α] : DecidableEq (Except ε α) :=
  fun a b =>
    match a, b with
    | .ok x, .ok y => if h : x = y then .isTrue (by rw [h]) else .isFalse (by simp [h])
    | .error x, .error y => if h : x = y then .isTrue (by rw [h]) else .isFalse (by simp [h])
    | .ok _, .error _ => .isFalse (by simp)
    | .error _, .ok _ => .isFalse (by simp)

/-- A collaborator whose every call fails (used to instantiate theorems at
concrete inputs). -/
def collabFail : Collab :=
  { gsearch := fun _ _ => .error "net down",
    scrape := fun _ _ => .error "net down",
    llm := fun _ _ => .error "api down",
    vllm := fun _ _ => .error "api down" }

/-- A collaborator whose LLM always answers `out` (other services fail). -/
def llmConst (out : String) : Collab :=
  { collabFail with llm := fun _ _ => .ok out }

/-! ## Heap / registry helper lemmas -/

theorem heapGet_heapSet_self (s : Orch) (ref : Nat) (t : Task) (h : ref < s.heap.length) :
    heapGet (heapSet s ref t) ref = some t := by
  simp [heapGet, heapSet, List.get?_eq_getElem?, List.getElem?_set_self', h]

theorem heapGet_heapSet_ne (s : Orch) (ref j : Nat) (t : Task) (h : ref ≠ j) :
    heapGet (heapSet s ref t) j = heapGet s j := by
  simp [heapGet, heapSet, List.get?_eq_getElem?, List.getElem?_set_ne h]

theorem heapGet_lt (s : Orch) (ref : Nat) (t : Task) (h : heapGet s ref = some t) :
    ref < s.heap.length := by
  by_contra hn
  simp [heapGet, List.get?_eq_getElem?, List.getElem?_eq_none (by omega : s.heap.length ≤ ref)] at h

theorem lookupNat_setAssoc_self (l : List (String × Nat)) (k : String) (v : Nat) :
    lookupNat (setAssocNat l k v) k = some v := by
  induction l with
  | nil => simp [setAssocNat, lookupNat]
  | cons p l ih =>
    by_cases h : p.1 = k
    · cases p; simp_all [setAssocNat, lookupNat]
    · cases p; simp_all [setAssocNat, lookupNat]

theorem lookupNat_setAssoc_ne (l : List (String × Nat)) (k : String) (v : Nat)
    (id : String) (h : id ≠ k) :
    lookupNat (setAssocNat l k v) id = lookupNat l id := by
  have hk2 : ¬(k = id) := Ne.symm h
  induction l with
  | nil => simp [setAssocNat, lookupNat, hk2]
  | cons p l ih =>
    cases p with
    | mk pk pv =>
      by_cases hk : pk = k
      · subst hk
        simp [setAssocNat, lookupNat, hk2]
      · simp [setAssocNat, lookupNat, hk, ih]

theorem lookupNat_mem (l : List (String × Nat)) (id : String) (r : Nat)
    (h : lookupNat l id = some r) : (id, r) ∈ l := by
  induction l with
  | nil => simp [lookupNat] at h
  | cons p l ih =>
    cases p with
    | mk pk pv =>
      by_cases hk : pk = id
      · subst hk
        simp [lookupNat] at h
        simp [h]
      · simp [lookupNat, hk] at h
        exact List.mem_cons_of_mem _ (ih h)

/-- C2, counterexample: registering a second task with an already-used id
does not fail — it appends the task to the pending queue a second time and
silently overwrites the registry entry, so neither the registry nor the
queue is left unchanged (and no exception is raised anywhere). -/
theorem c2_counterexample :
    (addTask (addTask Orch.empty (Task.make "a" "retrieval" [("query", .str "x")] []))
        (Task.make "a" "retrieval" [("query", .str "y")] [])).task_queue = [0, 1] ∧
    lookupNat (addTask (addTask Orch.empty (Task.make "a" "retrieval" [("query", .str "x")] []))
        (Task.make "a" "retrieval" [("query", .str "y")] [])).tasks "a" = some 1 ∧
    regGet (addTask (addTask Orch.empty (Task.make "a" "retrieval" [("query", .str "x")] []))
        (Task.make "a" "retrieval" [("query", .str "y")] [])) "a"
      = some (Task.make "a" "retrieval" [("query", .str "y")] []) := by
  refine ⟨by decide, by decide, by decide⟩

/-- C2 (amended): `add_task` never fails. It always appends the task to the
pending queue and registers it under its id, overwriting any existing
registry entry with that id; entries under other ids are unaffected. -/
theorem c2_add_task_amended (s : Orch) (t : Task)
    (hwf : ∀ p ∈ s.tasks, p.2 < s.heap.length) :
    (addTask s t).task_queue = s.task_queue ++ [s.heap.length] ∧
    regGet (addTask s t) t.task_id = some t ∧
    (∀ id, id ≠ t.task_id → regGet (addTask s t) id = regGet s id) := by
  refine ⟨rfl, ?_, ?_⟩
  · simp only [regGet, addTask, lookupNat_setAssoc_self]
    simp [heapGet, List.get?_eq_getElem?]
  · intro id hid
    simp only [regGet, addTask, lookupNat_setAssoc_ne _ _ _ id hid]
    match hl : lookupNat s.tasks id with
    | none => rfl
    | some r =>
      have hr : r < s.heap.length := hwf (id, r) (lookupNat_mem _ _ _ hl)
      simp [heapGet, List.get?_eq_getElem?, List.getElem?_append_left hr]

theorem c2_add_task_witness :
    (addTask (addTask Orch.empty (Task.make "a" "retrieval" [] []))
        (Task.make "b" "synthesis" [] [])).task_queue
      = (addTask Orch.empty (Task.make "a" "retrieval" [] [])).task_queue ++ [1] ∧
    regGet (addTask (addTask Orch.empty (Task.make "a" "retrieval" [] []))
        (Task.make "b" "synthesis" [] [])) "b" = some (Task.make "b" "synthesis" [] []) ∧
    (∀ id, id ≠ "b" →
      regGet (addTask (addTask Orch.empty (Task.make "a" "retrieval" [] []))
          (Task.make "b" "synthesis" [] [])) id
        = regGet (addTask Orch.empty (Task.make "a" "retrieval" [] [])) id) := by
  have h := c2_add_task_amended (addTask Orch.empty (Task.make "a" "retrieval" [] []))
    (Task.make "b" "synthesis" [] []) (by decide)
  exact h

/-! ## Step lemmas for `execute_task` -/

theorem executeTaskBody_heap (c : Collab) (s : Orch) (w : World) (task : Task) :
    (executeTaskBody c s w task).2.1.heap = s.heap := by
  unfold executeTaskBody
  repeat' split <;> try rfl

theorem executeTaskBody_queue (c : Collab) (s : Orch) (w : World) (task : Task) :
    (executeTaskBody c s w task).2.1.task_queue = s.task_queue := by
  unfold executeTaskBody
  repeat' split <;> try rfl

theorem executeTaskBody_tasks (c : Collab) (s : Orch) (w : World) (task : Task) :
    (executeTaskBody c s w task).2.1.tasks = s.tasks := by
  unfold executeTaskBody
  repeat' split <;> try rfl

theorem executeTaskBody_iter_nonsynth (c : Collab) (s : Orch) (w : World) (task : Task)
    (h : task.task_type ≠ "synthesis") :
    (executeTaskBody c s w task).2.1.synthesis_iteration = s.synthesis_iteration := by
  unfold executeTaskBody
  repeat' split
  all_goals try rfl
  all_goals simp_all

theorem executeTaskBody_iter_synth (c : Collab) (s : Orch) (w : World) (task : Task)
    (h : task.task_type = "synthesis") (vs : List Val)
    (hd : collectDeps s task.dependencies = .ok vs) :
    (executeTaskBody c s w task).2.1.synthesis_iteration = s.synthesis_iteration + 1 := by
  unfold executeTaskBody
  rw [h, hd]
  repeat' split
  all_goals try rfl
  all_goals simp_all

/-- Structure of one `execute_task` step: the task ends `completed` with its
result, or `failed` with an error message, and the recorded events are the
two (or three) status transitions plus the start marker. -/
theorem executeTask_spec (c : Collab) (s : Orch) (w : World) (ref : Nat) (task : Task)
    (h : heapGet s ref = some task) :
    ∃ st2 v,
      (executeTask c s w ref).1
        = heapSet (executeTaskBody c (heapSet s ref { task with status := "in_progress" }) w
            { task with status := "in_progress" }).2.1 ref
            { task with status := st2, result := v } ∧
      (executeTask c s w ref).2.1
        = (executeTaskBody c (heapSet s ref { task with status := "in_progress" }) w
            { task with status := "in_progress" }).2.2 ∧
      (executeTask c s w ref).2.2
        = [Event.started s task, Event.statusSet ref task.status "in_progress",
           Event.statusSet ref "in_progress" st2] ∧
      (st2 = "completed" ∨ (st2 = "failed" ∧ ∃ m, v = Val.str ("[Error: " ++ m ++ "]"))) := by
  unfold executeTask
  rw [h]
  rcases hb : executeTaskBody c (heapSet s ref { task with status := "in_progress" }) w
      { task with status := "in_progress" } with ⟨res, s2, w2⟩
  simp only [hb]
  cases res with
  | ok v => exact ⟨"completed", v, rfl, rfl, rfl, .inl rfl⟩
  | error e =>
    exact ⟨"failed", .str ("[Error: " ++ e.msg ++ "]"), rfl, rfl, rfl, .inr ⟨rfl, e.msg, rfl⟩⟩

theorem canExecute_regGet (s : Orch) (t : Task) (h : canExecute s t = true) :
    ∀ d ∈ t.dependencies, (regGet s d).isSome := by
  intro d hd
  have hp := List.all_eq_true.mp h d hd
  cases hg : regGet s d with
  | none => rw [hg] at hp; simp at hp
  | some u => simp

theorem regGet_heapSet_isSome (s : Orch) (ref : Nat) (t : Task) (d : String)
    (h : (regGet s d).isSome) : (regGet (heapSet s ref t) d).isSome := by
  unfold regGet heapGet heapSet at *
  cases hl : lookupNat s.tasks d with
  | none => simp_all
  | some r =>
    rw [hl] at h
    simp only [List.get?_eq_getElem?] at h ⊢
    have hr : r < s.heap.length := by
      by_contra hn
      rw [List.getElem?_eq_none (by omega)] at h
      simp at h
    simp [List.getElem?_eq_getElem (show r < (s.heap.set ref t).length by simpa using hr)]

theorem collectDeps_isSome (s : Orch) (ds : List String)
    (h : ∀ d ∈ ds, (regGet s d).isSome) : ∃ vs, collectDeps s ds = .ok vs := by
  induction ds with
  | nil => exact ⟨[], rfl⟩
  | cons d ds ih =>
    obtain ⟨u, hu⟩ := Option.isSome_iff_exists.mp (h d (by simp))
    obtain ⟨vs, hvs⟩ := ih (fun x hx => h x (by simp [hx]))
    refine ⟨if u.status = "completed" then u.result :: vs else vs, ?_⟩
    simp only [collectDeps, hu, hvs]
    by_cases hs : u.status = "completed" <;> simp [hs, Except.bind]

theorem executeTask_iter (c : Collab) (s : Orch) (w : World) (ref : Nat) (task : Task)
    (h : heapGet s ref = some task) (hce : canExecute s task = true) :
    (executeTask c s w ref).1.synthesis_iteration
      = s.synthesis_iteration + (if task.task_type = "synthesis" then 1 else 0) := by
  obtain ⟨st2, v, hst, -, -, -⟩ := executeTask_spec c s w ref task h
  rw [hst]
  show (executeTaskBody c (heapSet s ref { task with status := "in_progress" }) w
      { task with status := "in_progress" }).2.1.synthesis_iteration = _
  by_cases hty : task.task_type = "synthesis"
  · have hsome : ∀ d ∈ ({ task with status := "in_progress" } : Task).dependencies,
        (regGet (heapSet s ref { task with status := "in_progress" }) d).isSome := by
      intro d hd
      exact regGet_heapSet_isSome _ _ _ _ (canExecute_regGet s task hce d hd)
    obtain ⟨vs, hvs⟩ := collectDeps_isSome _ _ hsome
    have hb := executeTaskBody_iter_synth c
      (heapSet s ref { task with status := "in_progress" }) w
      { task with status := "in_progress" } (by simpa using hty) vs hvs
    rw [hb]
    simp [heapSet, hty]
  · have hb := executeTaskBody_iter_nonsynth c
      (heapSet s ref { task with status := "in_progress" }) w
      { task with status := "in_progress" } (by simpa using hty)
    rw [hb]
    simp [heapSet, hty]

def isSynthStart : Event → Bool
  | .started _ t => t.task_type = "synthesis"
  | _ => false

theorem executeTask_countP (c : Collab) (s : Orch) (w : World) (ref : Nat) (task : Task)
    (h : heapGet s ref = some task) :
    ((executeTask c s w ref).2.2).countP isSynthStart
      = (if task.task_type = "synthesis" then 1 else 0) := by
  obtain ⟨st2, v, -, -, hevs, -⟩ := executeTask_spec c s w ref task h
  rw [hevs]
  by_cases hty : task.task_type = "synthesis" <;>
    simp [List.countP_cons, isSynthStart, hty]

theorem executeTask_no_spawn (c : Collab) (s : Orch) (w : World) (ref : Nat) (task : Task)
    (h : heapGet s ref = some task) :
    ∀ e ∈ (executeTask c s w ref).2.2, ∀ id n, e ≠ .spawned id n := by
  obtain ⟨st2, v, -, -, hevs, -⟩ := executeTask_spec c s w ref task h
  rw [hevs]
  intro e he id n
  simp only [List.mem_cons, List.mem_singleton, List.not_mem_nil, or_false] at he
  rcases he with rfl | rfl | rfl <;> simp

/-! ## Step lemmas for the replanning block -/

theorem addTask_iter (s : Orch) (t : Task) :
    (addTask s t).synthesis_iteration = s.synthesis_iteration := rfl

theorem spawnUrls_iter (us : List Val) :
    ∀ s, (spawnUrls s us).1.synthesis_iteration = s.synthesis_iteration := by
  induction us with
  | nil => intro s; rfl
  | cons u us ih =>
    intro s
    simp only [spawnUrls]
    rcases hsp : spawnUrls (addTask s (Task.make ("retrieval_url_" ++ toString s.tasks.length)
        "retrieval" [("url", u)] [])) us with ⟨s3, evs⟩
    have := ih (addTask s (Task.make ("retrieval_url_" ++ toString s.tasks.length)
        "retrieval" [("url", u)] []))
    rw [hsp] at this
    simpa [addTask_iter] using this

theorem spawnUrls_events (us : List Val) :
    ∀ s, ∀ e ∈ (spawnUrls s us).2, ∃ id, e = .spawned id s.synthesis_iteration := by
  induction us with
  | nil => intro s e he; simp [spawnUrls] at he
  | cons u us ih =>
    intro s e he
    simp only [spawnUrls] at he
    rcases hsp : spawnUrls (addTask s (Task.make ("retrieval_url_" ++ toString s.tasks.length)
        "retrieval" [("url", u)] [])) us with ⟨s3, evs⟩
    rw [hsp] at he
    simp only [List.mem_cons] at he
    rcases he with rfl | he
    · exact ⟨_, rfl⟩
    · have := ih (addTask s (Task.make ("retrieval_url_" ++ toString s.tasks.length)
        "retrieval" [("url", u)] [])) e (by rw [hsp]; exact he)
      simpa [addTask_iter] using this

theorem spawnEntry_iter (s : Orch) (entry : Val) :
    (spawnEntry s entry).2.1.synthesis_iteration = s.synthesis_iteration := by
  unfold spawnEntry
  match entry with
  | .null | .bool _ | .str _ | .arr _ => rfl
  | .obj kvs =>
    simp only []
    by_cases h1 : (lookupStr kvs "tool").getD Val.null = Val.str "scrape_urls"
    · rw [if_pos h1]
      cases pyContainsStr ((lookupStr kvs "parameters").getD (.obj [])) "urls" with
      | error e => rfl
      | ok b =>
        cases b with
        | false => rfl
        | true =>
          simp only []
          cases getItem ((lookupStr kvs "parameters").getD (.obj [])) "urls" with
          | error e => rfl
          | ok urlsv =>
            simp only []
            cases pyIter urlsv with
            | error e => rfl
            | ok urls => exact spawnUrls_iter urls s
    · rw [if_neg h1]
      by_cases h2 : (lookupStr kvs "tool").getD Val.null = Val.str "google_search"
      · rw [if_pos h2]
        cases pyContainsStr ((lookupStr kvs "parameters").getD (.obj [])) "q" with
        | error e => rfl
        | ok b =>
          cases b with
          | false => rfl
          | true =>
            simp only []
            cases getItem ((lookupStr kvs "parameters").getD (.obj [])) "q" with
            | error e => rfl
            | ok qv => rfl
      · rw [if_neg h2]

theorem spawnEntry_events (s : Orch) (entry : Val) :
    ∀ e ∈ (spawnEntry s entry).2.2, ∃ id, e = .spawned id s.synthesis_iteration := by
  unfold spawnEntry
  match entry with
  | .null | .bool _ | .str _ | .arr _ => intro e he; simp at he
  | .obj kvs =>
    simp only []
    by_cases h1 : (lookupStr kvs "tool").getD Val.null = Val.str "scrape_urls"
    · rw [if_pos h1]
      cases pyContainsStr ((lookupStr kvs "parameters").getD (.obj [])) "urls" with
      | error e => intro e he; simp at he
      | ok b =>
        cases b with
        | false => intro e he; simp at he
        | true =>
          simp only []
          cases getItem ((lookupStr kvs "parameters").getD (.obj [])) "urls" with
          | error e => intro e he; simp at he
          | ok urlsv =>
            simp only []
            cases pyIter urlsv with
            | error e => intro e he; simp at he
            | ok urls => exact spawnUrls_events urls s
    · rw [if_neg h1]
      by_cases h2 : (lookupStr kvs "tool").getD Val.null = Val.str "google_search"
      · rw [if_pos h2]
        cases pyContainsStr ((lookupStr kvs "parameters").getD (.obj [])) "q" with
        | error e => intro e he; simp at he
        | ok b =>
          cases b with
          | false => intro e he; simp at he
          | true =>
            simp only []
            cases getItem ((lookupStr kvs "parameters").getD (.obj [])) "q" with
            | error e => intro e he; simp at he
            | ok qv =>
              intro e he
              simp only [List.mem_singleton] at he
              exact ⟨_, he⟩
      · rw [if_neg h2]; intro e he; simp at he

theorem spawnEntries_iter (es : List Val) :
    ∀ s, (spawnEntries s es).2.1.synthesis_iteration = s.synthesis_iteration := by
  induction es with
  | nil => intro s; rfl
  | cons entry es ih =>
    intro s
    simp only [spawnEntries]
    rcases hse : spawnEntry s entry with ⟨r1, s2, evs⟩
    have h1 := spawnEntry_iter s entry
    rw [hse] at h1
    simp only at h1
    cases r1 with
    | ok u =>
      show (spawnEntries s2 es).2.1.synthesis_iteration = s.synthesis_iteration
      rw [ih s2]
      exact h1
    | error err => exact h1

theorem spawnEntries_events (es : List Val) :
    ∀ s, ∀ e ∈ (spawnEntries s es).2.2, ∃ id, e = .spawned id s.synthesis_iteration := by
  induction es with
  | nil => intro s e he; simp [spawnEntries] at he
  | cons entry es ih =>
    intro s e he
    simp only [spawnEntries] at he
    rcases hse : spawnEntry s entry with ⟨r1, s2, evs⟩
    have h1 := spawnEntry_iter s entry
    rw [hse] at h1
    simp only at h1
    rw [hse] at he
    cases r1 with
    | ok u =>
      simp only [List.mem_append] at he
      rcases he with he | he
      · exact spawnEntry_events s entry e (by rw [hse]; exact he)
      · have := ih s2 e he
        rw [h1] at this
        exact this
    | error err =>
      exact spawnEntry_events s entry e (by rw [hse]; exact he)

theorem spawnAdditional_iter (s : Orch) (out : Val) :
    (spawnAdditional s out).2.1.synthesis_iteration = s.synthesis_iteration := by
  unfold spawnAdditional
  repeat' split
  all_goals try rfl
  rename_i entries _
  exact spawnEntries_iter entries s

theorem spawnAdditional_events (s : Orch) (out : Val) :
    ∀ e ∈ (spawnAdditional s out).2.2, ∃ id, e = .spawned id s.synthesis_iteration := by
  unfold spawnAdditional
  repeat' split
  all_goals try (intro e he; simp at he)
  rename_i entries _
  exact spawnEntries_events entries s

theorem replanInner_iter (s : Orch) (task : Task) :
    (replanInner s task).2.1.synthesis_iteration = s.synthesis_iteration := by
  unfold replanInner
  cases loadsVal task.result with
  | error e => rfl
  | ok out =>
    simp only []
    cases getItem out "status" with
    | error e => rfl
    | ok st =>
      simp only []
      split
      · rcases hsa : spawnAdditional s out with ⟨r1, s2, evs⟩
        have h1 := spawnAdditional_iter s out
        rw [hsa] at h1
        simp only at h1
        cases r1 with
        | error e => simpa [hsa] using h1
        | ok u =>
          cases hq : lookupStr task.params "query" with
          | none => simpa [hsa, hq] using h1
          | some qv => simpa [hsa, hq, addTask_iter] using h1
      · rfl

theorem replanInner_events (s : Orch) (task : Task) :
    ∀ e ∈ (replanInner s task).2.2,
      (∃ id, e = .spawned id s.synthesis_iteration) ∧ s.synthesis_iteration < 8 := by
  unfold replanInner
  cases loadsVal task.result with
  | error e => intro e he; simp at he
  | ok out =>
    simp only []
    cases getItem out "status" with
    | error e => intro e he; simp at he
    | ok st =>
      simp only []
      split
      · rename_i hguard
        rcases hsa : spawnAdditional s out with ⟨r1, s2, evs⟩
        have h1 := spawnAdditional_iter s out
        have h2 := spawnAdditional_events s out
        rw [hsa] at h1 h2
        simp only at h1 h2
        cases r1 with
        | error err =>
          intro e he
          simp only [hsa] at he
          exact ⟨h2 e he, hguard.2⟩
        | ok u =>
          cases hq : lookupStr task.params "query" with
          | none =>
            intro e he
            simp only [hsa, hq] at he
            exact ⟨h2 e he, hguard.2⟩
          | some qv =>
            intro e he
            simp only [hsa, hq] at he
            rw [List.mem_append] at he
            rcases he with he | he
            · exact ⟨h2 e he, hguard.2⟩
            · simp only [List.mem_singleton] at he
              exact ⟨⟨_, by rw [he, h1]⟩, hguard.2⟩
      · intro e he; simp at he

theorem replan_iter (s : Orch) (ref : Nat) :
    (replan s ref).2.1.synthesis_iteration = s.synthesis_iteration := by
  unfold replan
  cases heapGet s ref with
  | none => rfl
  | some task =>
    simp only []
    rcases hri : replanInner s task with ⟨r1, s2, evs⟩
    have h1 := replanInner_iter s task
    rw [hri] at h1
    simp only at h1
    cases r1 with
    | ok u => simpa using h1
    | error err =>
      cases err with
      | jsonDecode m =>
        simp only []
        cases heapGet s2 ref with
        | none => simpa using h1
        | some t2 => simpa [heapSet] using h1
      | keyError k => simpa using h1
      | typeError m => simpa using h1
      | valueError m => simpa using h1
      | attributeError m => simpa using h1
      | indexError m => simpa using h1

theorem replan_events (s : Orch) (ref : Nat) :
    ∀ e ∈ (replan s ref).2.2,
      ((∃ id, e = .spawned id s.synthesis_iteration) ∧ s.synthesis_iteration < 8) ∨
        (∃ r o n2, e = .statusSet r o n2) := by
  unfold replan
  cases heapGet s ref with
  | none => intro e he; simp at he
  | some task =>
    simp only []
    rcases hri : replanInner s task with ⟨r1, s2, evs⟩
    have h2 := replanInner_events s task
    rw [hri] at h2
    simp only at h2
    cases r1 with
    | ok u =>
      intro e he
      exact .inl (h2 e he)
    | error err =>
      cases err with
      | jsonDecode m =>
        intro e he
        simp only [] at he
        rcases hg : heapGet s2 ref with _ | t2
        · rw [hg] at he
          simp only at he
          exact .inl (h2 e he)
        · rw [hg] at he
          simp only [List.mem_append] at he
          rcases he with he | he
          · exact .inl (h2 e he)
          · simp only [List.mem_singleton] at he
            exact .inr ⟨_, _, _, he⟩
      | keyError k => intro e he; exact .inl (h2 e he)
      | typeError m => intro e he; exact .inl (h2 e he)
      | valueError m => intro e he; exact .inl (h2 e he)
      | attributeError m => intro e he; exact .inl (h2 e he)
      | indexError m => intro e he; exact .inl (h2 e he)

/-! ## Run-loop lemmas: the iteration counter and the spawn cap -/

theorem countP_replan_zero (s : Orch) (ref : Nat) :
    ((replan s ref).2.2).countP isSynthStart = 0 := by
  rw [List.countP_eq_zero]
  intro e he
  rcases replan_events s ref e he with ⟨⟨id, rfl⟩, -⟩ | ⟨r2, o2, n2, rfl⟩ <;>
    simp [isSynthStart]

theorem execute_tasks_iter (c : Collab) : ∀ (fuel : Nat) (s : Orch) (w : World)
    (r : Except PyErr Unit) (s2 : Orch) (w2 : World) (evs : List Event),
    execute_tasks c fuel s w = (r, s2, w2, evs) →
    s2.synthesis_iteration = s.synthesis_iteration + evs.countP isSynthStart := by
  intro fuel
  induction fuel with
  | zero =>
    intro s w r s2 w2 evs h
    simp only [execute_tasks, Prod.mk.injEq] at h
    obtain ⟨-, rfl, -, rfl⟩ := h
    simp
  | succ fuel ih =>
    intro s w r s2 w2 evs h
    simp only [execute_tasks] at h
    cases hq : s.task_queue with
    | nil =>
      rw [hq] at h
      simp only [Prod.mk.injEq] at h
      obtain ⟨-, rfl, -, rfl⟩ := h
      simp
    | cons ref rest =>
      rw [hq] at h
      simp only [] at h
      cases hg : heapGet { s with task_queue := rest } ref with
      | none =>
        rw [hg] at h
        exact ih { s with task_queue := rest } w r s2 w2 evs h
      | some task =>
        rw [hg] at h
        simp only [] at h
        split at h
        · rename_i hce
          rcases hex : executeTask c { s with task_queue := rest } w ref with ⟨s1, w1, evs1⟩
          rw [hex] at h
          simp only at h
          have hti : s1.synthesis_iteration
              = s.synthesis_iteration
                + (if task.task_type = "synthesis" then 1 else 0) := by
            have := executeTask_iter c { s with task_queue := rest } w ref task hg hce
            rw [hex] at this
            exact this
          have hcnt : evs1.countP isSynthStart
              = (if task.task_type = "synthesis" then 1 else 0) := by
            have := executeTask_countP c { s with task_queue := rest } w ref task hg
            rw [hex] at this
            exact this
          split at h
          · rcases hrp : replan s1 ref with ⟨r2, s2x, evs2⟩
            rw [hrp] at h
            have hri : s2x.synthesis_iteration = s1.synthesis_iteration := by
              have := replan_iter s1 ref
              rw [hrp] at this
              exact this
            have hrz : evs2.countP isSynthStart = 0 := by
              have := countP_replan_zero s1 ref
              rw [hrp] at this
              exact this
            cases r2 with
            | ok u =>
              simp only [] at h
              rcases hrec : execute_tasks c fuel s2x w1 with ⟨r3, s3, w3, evs3⟩
              rw [hrec] at h
              simp only [Prod.mk.injEq] at h
              obtain ⟨-, rfl, -, rfl⟩ := h
              have hih := ih s2x w1 r3 s3 w3 evs3 hrec
              rw [List.countP_append, List.countP_append, hih, hri, hti, hcnt, hrz]
              omega
            | error e2 =>
              simp only [Prod.mk.injEq] at h
              obtain ⟨-, rfl, -, rfl⟩ := h
              rw [List.countP_append, hri, hti, hcnt, hrz]
              omega
          · rcases hrec : execute_tasks c fuel s1 w1 with ⟨r3, s3, w3, evs3⟩
            rw [hrec] at h
            simp only [Prod.mk.injEq] at h
            obtain ⟨-, rfl, -, rfl⟩ := h
            have hih := ih s1 w1 r3 s3 w3 evs3 hrec
            rw [List.countP_append, hih, hti, hcnt]
            omega
        · exact ih { s with task_queue := rest ++ [ref] } w r s2 w2 evs h

theorem execute_tasks_spawn_lt (c : Collab) : ∀ (fuel : Nat) (s : Orch) (w : World)
    (r : Except PyErr Unit) (s2 : Orch) (w2 : World) (evs : List Event),
    execute_tasks c fuel s w = (r, s2, w2, evs) →
    ∀ id n, Event.spawned id n ∈ evs → n < 8 := by
  intro fuel
  induction fuel with
  | zero =>
    intro s w r s2 w2 evs h
    simp only [execute_tasks, Prod.mk.injEq] at h
    obtain ⟨-, -, -, rfl⟩ := h
    intro id n hm
    simp at hm
  | succ fuel ih =>
    intro s w r s2 w2 evs h
    simp only [execute_tasks] at h
    cases hq : s.task_queue with
    | nil =>
      rw [hq] at h
      simp only [Prod.mk.injEq] at h
      obtain ⟨-, -, -, rfl⟩ := h
      intro id n hm
      simp at hm
    | cons ref rest =>
      rw [hq] at h
      simp only [] at h
      cases hg : heapGet { s with task_queue := rest } ref with
      | none =>
        rw [hg] at h
        exact ih { s with task_queue := rest } w r s2 w2 evs h
      | some task =>
        rw [hg] at h
        simp only [] at h
        split at h
        · rename_i hce
          rcases hex : executeTask c { s with task_queue := rest } w ref with ⟨s1, w1, evs1⟩
          rw [hex] at h
          simp only at h
          have hns : ∀ id n, Event.spawned id n ∉ evs1 := by
            intro id n hm
            exact executeTask_no_spawn c { s with task_queue := rest } w ref task hg
              (.spawned id n) (by rw [hex]; exact hm) id n rfl
          split at h
          · rcases hrp : replan s1 ref with ⟨r2, s2x, evs2⟩
            rw [hrp] at h
            have hsp2 : ∀ id n, Event.spawned id n ∈ evs2 → n < 8 := by
              intro id n hm
              rcases replan_events s1 ref (.spawned id n) (by rw [hrp]; exact hm) with
                ⟨⟨id2, heq⟩, hlt⟩ | ⟨r3, o3, n3, heq⟩
              · injection heq with h1 h2
                rw [h2]
                exact hlt
              · simp at heq
            cases r2 with
            | ok u =>
              simp only [] at h
              rcases hrec : execute_tasks c fuel s2x w1 with ⟨r3, s3, w3, evs3⟩
              rw [hrec] at h
              simp only [Prod.mk.injEq] at h
              obtain ⟨-, -, -, rfl⟩ := h
              intro id n hm
              rw [List.append_assoc, List.mem_append, List.mem_append] at hm
              rcases hm with hm | hm | hm
              · exact absurd hm (hns id n)
              · exact hsp2 id n hm
              · exact ih s2x w1 r3 s3 w3 evs3 hrec id n hm
            | error e2 =>
              simp only [Prod.mk.injEq] at h
              obtain ⟨-, -, -, rfl⟩ := h
              intro id n hm
              rw [List.mem_append] at hm
              rcases hm with hm | hm
              · exact absurd hm (hns id n)
              · exact hsp2 id n hm
          · rcases hrec : execute_tasks c fuel s1 w1 with ⟨r3, s3, w3, evs3⟩
            rw [hrec] at h
            simp only [Prod.mk.injEq] at h
            obtain ⟨-, -, -, rfl⟩ := h
            intro id n hm
            rw [List.mem_append] at hm
            rcases hm with hm | hm
            · exact absurd hm (hns id n)
            · exact ih s1 w1 r3 s3 w3 evs3 hrec id n hm
        · exact ih { s with task_queue := rest ++ [ref] } w r s2 w2 evs h

/-- A one-task state whose single synthesis task has no `query` parameter:
its execution fails with a `KeyError` after the counter was already
incremented. -/
def sC4 : Orch := addTask Orch.empty (Task.make "s1" "synthesis" [] [])

def wC4 : World := ⟨0, 0, 0, 0⟩

theorem executeTask_status (c : Collab) (s : Orch) (w : World) (ref : Nat) (task : Task)
    (h : heapGet s ref = some task) :
    ∃ t2, heapGet (executeTask c s w ref).1 ref = some t2 ∧
      (t2.status = "completed" ∨
        (t2.status = "failed" ∧ ∃ m, t2.result = Val.str ("[Error: " ++ m ++ "]"))) := by
  obtain ⟨st2, v, hst, -, -, hor⟩ := executeTask_spec c s w ref task h
  have hlt : ref < s.heap.length := heapGet_lt s ref task h
  have hlen : ref < (executeTaskBody c (heapSet s ref { task with status := "in_progress" }) w
      { task with status := "in_progress" }).2.1.heap.length := by
    rw [executeTaskBody_heap]
    simpa [heapSet] using hlt
  refine ⟨{ task with status := st2, result := v }, ?_, ?_⟩
  · rw [hst]
    exact heapGet_heapSet_self _ ref _ hlen
  · rcases hor with rfl | ⟨rfl, m, rfl⟩
    · exact .inl rfl
    · exact .inr ⟨rfl, m, rfl⟩

/-- A one-task state whose synthesis task has its `query` parameter, used to
run a full loop iteration against a canned LLM reply. -/
def sC3 : Orch := addTask Orch.empty (Task.make "s1" "synthesis" [("query", .str "q")] [])

theorem canExecute_deps (s : Orch) (t : Task) (h : canExecute s t = true) :
    ∀ d ∈ t.dependencies, ∃ u, regGet s d = some u ∧ u.status = "completed" := by
  intro d hd
  have hp := List.all_eq_true.mp h d hd
  simp only [] at hp
  cases hg : regGet s d with
  | none => rw [hg] at hp; simp at hp
  | some u =>
    rw [hg] at hp
    simp at hp
    exact ⟨u, rfl, hp⟩

theorem execute_tasks_started (c : Collab) : ∀ (fuel : Nat) (s : Orch) (w : World)
    (r : Except PyErr Unit) (s2 : Orch) (w2 : World) (evs : List Event),
    execute_tasks c fuel s w = (r, s2, w2, evs) →
    ∀ pre t, Event.started pre t ∈ evs → canExecute pre t = true := by
  intro fuel
  induction fuel with
  | zero =>
    intro s w r s2 w2 evs h
    simp only [execute_tasks, Prod.mk.injEq] at h
    obtain ⟨-, -, -, rfl⟩ := h
    intro pre t hm
    simp at hm
  | succ fuel ih =>
    intro s w r s2 w2 evs h
    simp only [execute_tasks] at h
    cases hq : s.task_queue with
    | nil =>
      rw [hq] at h
      simp only [Prod.mk.injEq] at h
      obtain ⟨-, -, -, rfl⟩ := h
      intro pre t hm
      simp at hm
    | cons ref rest =>
      rw [hq] at h
      simp only [] at h
      cases hg : heapGet { s with task_queue := rest } ref with
      | none =>
        rw [hg] at h
        exact ih { s with task_queue := rest } w r s2 w2 evs h
      | some task =>
        rw [hg] at h
        simp only [] at h
        split at h
        · rename_i hce
          rcases hex : executeTask c { s with task_queue := rest } w ref with ⟨s1, w1, evs1⟩
          rw [hex] at h
          simp only at h
          have hev1 : ∀ pre t, Event.started pre t ∈ evs1 →
              pre = { s with task_queue := rest } ∧ t = task := by
            intro pre t hm
            obtain ⟨st2, v, -, -, hevs, -⟩ :=
              executeTask_spec c { s with task_queue := rest } w ref task hg
            rw [hex] at hevs
            simp only at hevs
            rw [hevs] at hm
            simp only [List.mem_cons, List.not_mem_nil, or_false] at hm
            rcases hm with hm | hm | hm
            · injection hm with h1 h2
              exact ⟨h1, h2⟩
            · exact absurd hm (by simp)
            · exact absurd hm (by simp)
          split at h
          · rcases hrp : replan s1 ref with ⟨r2, s2x, evs2⟩
            rw [hrp] at h
            have hev2 : ∀ pre t, Event.started pre t ∉ evs2 := by
              intro pre t hm
              rcases replan_events s1 ref (.started pre t) (by rw [hrp]; exact hm) with
                ⟨⟨id2, heq⟩, -⟩ | ⟨r3, o3, n3, heq⟩ <;> simp at heq
            cases r2 with
            | ok u =>
              simp only [] at h
              rcases hrec : execute_tasks c fuel s2x w1 with ⟨r3, s3, w3, evs3⟩
              rw [hrec] at h
              simp only [Prod.mk.injEq] at h
              obtain ⟨-, -, -, rfl⟩ := h
              intro pre t hm
              rw [List.append_assoc, List.mem_append, List.mem_append] at hm
              rcases hm with hm | hm | hm
              · obtain ⟨rfl, rfl⟩ := hev1 pre t hm
                exact hce
              · exact absurd hm (hev2 pre t)
              · exact ih s2x w1 r3 s3 w3 evs3 hrec pre t hm
            | error e2 =>
              simp only [Prod.mk.injEq] at h
              obtain ⟨-, -, -, rfl⟩ := h
              intro pre t hm
              rw [List.mem_append] at hm
              rcases hm with hm | hm
              · obtain ⟨rfl, rfl⟩ := hev1 pre t hm
                exact hce
              · exact absurd hm (hev2 pre t)
          · rcases hrec : execute_tasks c fuel s1 w1 with ⟨r3, s3, w3, evs3⟩
            rw [hrec] at h
            simp only [Prod.mk.injEq] at h
            obtain ⟨-, -, -, rfl⟩ := h
            intro pre t hm
            rw [List.mem_append] at hm
            rcases hm with hm | hm
            · obtain ⟨rfl, rfl⟩ := hev1 pre t hm
              exact hce
            · exact ih s1 w1 r3 s3 w3 evs3 hrec pre t hm
        · exact ih { s with task_queue := rest ++ [ref] } w r s2 w2 evs h

/-! ## Scheduler well-formedness: the queue holds distinct, valid, pending refs -/

/-- The task at `q` (if any) is still `pending`. -/
def pendingAt (s : Orch) (q : Nat) : Bool :=
  match heapGet s q with
  | some t => t.status = "pending"
  | none => true

/-- Well-formed scheduler state: every queued ref is a valid heap index,
the queue has no duplicates, and every queued task is still pending. This
holds for every state built with `add_task` and is preserved by the loop. -/
def WF (s : Orch) : Prop :=
  (∀ q ∈ s.task_queue, q < s.heap.length) ∧
  s.task_queue.Nodup ∧
  (∀ q ∈ s.task_queue, pendingAt s q = true)

theorem pendingAt_eq (s : Orch) (q : Nat) (t : Task)
    (h : heapGet s q = some t) (hp : pendingAt s q = true) : t.status = "pending" := by
  unfold pendingAt at hp
  rw [h] at hp
  simpa using hp

theorem WF_pop (s : Orch) (ref : Nat) (rest : List Nat)
    (hq : s.task_queue = ref :: rest) (hwf : WF s) :
    WF { s with task_queue := rest } ∧ ref ∉ rest := by
  obtain ⟨h1, h2, h3⟩ := hwf
  rw [hq] at h1 h2 h3
  refine ⟨⟨?_, (List.nodup_cons.mp h2).2, ?_⟩, (List.nodup_cons.mp h2).1⟩
  · intro q hqm
    exact h1 q (List.mem_cons_of_mem _ hqm)
  · intro q hqm
    exact h3 q (List.mem_cons_of_mem _ hqm)

theorem WF_requeue (s : Orch) (ref : Nat) (rest : List Nat) (task : Task)
    (hq : s.task_queue = ref :: rest) (hg : heapGet s ref = some task) (hwf : WF s) :
    WF { s with task_queue := rest ++ [ref] } := by
  obtain ⟨h1, h2, h3⟩ := hwf
  rw [hq] at h1 h2 h3
  have hnin : ref ∉ rest := (List.nodup_cons.mp h2).1
  refine ⟨?_, ?_, ?_⟩
  · intro q hqm
    simp only [List.mem_append, List.mem_singleton] at hqm
    rcases hqm with hqm | rfl
    · exact h1 q (List.mem_cons_of_mem _ hqm)
    · exact h1 _ (List.mem_cons_self _ _)
  · show (rest ++ [ref]).Nodup
    refine List.Nodup.append (List.nodup_cons.mp h2).2 (List.nodup_singleton _) ?_
    intro a ha hb
    rw [List.mem_singleton] at hb
    subst hb
    exact hnin ha
  · intro q hqm
    simp only [List.mem_append, List.mem_singleton] at hqm
    show pendingAt s q = true
    rcases hqm with hqm | rfl
    · exact h3 q (List.mem_cons_of_mem _ hqm)
    · exact h3 _ (List.mem_cons_self _ _)

theorem addTask_WF (s : Orch) (t : Task) (hp : t.status = "pending") (hwf : WF s) :
    WF (addTask s t) := by
  obtain ⟨h1, h2, h3⟩ := hwf
  refine ⟨?_, ?_, ?_⟩
  · intro q hq
    simp only [addTask, List.mem_append, List.mem_singleton] at hq
    simp only [addTask, List.length_append, List.length_singleton]
    rcases hq with hq | rfl
    · have := h1 q hq; omega
    · omega
  · show (s.task_queue ++ [s.heap.length]).Nodup
    refine List.Nodup.append h2 (List.nodup_singleton _) ?_
    intro a ha hb
    rw [List.mem_singleton] at hb
    subst hb
    exact absurd (h1 _ ha) (lt_irrefl _)
  · intro q hq
    simp only [addTask, List.mem_append, List.mem_singleton] at hq
    rcases hq with hq | rfl
    · have hlt := h1 q hq
      have heq : heapGet (addTask s t) q = heapGet s q := by
        simp [heapGet, addTask, List.get?_eq_getElem?, List.getElem?_append_left hlt]
      unfold pendingAt
      rw [heq]
      exact h3 q hq
    · have heq : heapGet (addTask s t) s.heap.length = some t := by
        simp [heapGet, addTask, List.get?_eq_getElem?, List.getElem?_concat_length]
      unfold pendingAt
      rw [heq]
      simpa using hp

theorem spawnUrls_WF (us : List Val) : ∀ s, WF s → WF (spawnUrls s us).1 := by
  induction us with
  | nil => intro s h; exact h
  | cons u us ih =>
    intro s h
    exact ih _ (addTask_WF _ _ rfl h)

theorem spawnEntry_WF (s : Orch) (entry : Val) (h : WF s) : WF (spawnEntry s entry).2.1 := by
  unfold spawnEntry
  match entry with
  | .null | .bool _ | .str _ | .arr _ => exact h
  | .obj kvs =>
    simp only []
    by_cases h1 : (lookupStr kvs "tool").getD Val.null = Val.str "scrape_urls"
    · rw [if_pos h1]
      cases pyContainsStr ((lookupStr kvs "parameters").getD (.obj [])) "urls" with
      | error e => exact h
      | ok b =>
        cases b with
        | false => exact h
        | true =>
          simp only []
          cases getItem ((lookupStr kvs "parameters").getD (.obj [])) "urls" with
          | error e => exact h
          | ok urlsv =>
            simp only []
            cases pyIter urlsv with
            | error e => exact h
            | ok urls => exact spawnUrls_WF urls s h
    · rw [if_neg h1]
      by_cases h2 : (lookupStr kvs "tool").getD Val.null = Val.str "google_search"
      · rw [if_pos h2]
        cases pyContainsStr ((lookupStr kvs "parameters").getD (.obj [])) "q" with
        | error e => exact h
        | ok b =>
          cases b with
          | false => exact h
          | true =>
            simp only []
            cases getItem ((lookupStr kvs "parameters").getD (.obj [])) "q" with
            | error e => exact h
            | ok qv => exact addTask_WF s _ rfl h
      · rw [if_neg h2]; exact h

theorem spawnEntries_WF (es : List Val) : ∀ s, WF s → WF (spawnEntries s es).2.1 := by
  induction es with
  | nil => intro s h; exact h
  | cons entry es ih =>
    intro s h
    simp only [spawnEntries]
    rcases hse : spawnEntry s entry with ⟨r1, s2, evs⟩
    have h2 : WF s2 := by
      have := spawnEntry_WF s entry h
      rw [hse] at this
      exact this
    cases r1 with
    | ok u => exact ih s2 h2
    | error err => exact h2

theorem spawnAdditional_WF (s : Orch) (out : Val) (h : WF s) :
    WF (spawnAdditional s out).2.1 := by
  unfold spawnAdditional
  cases pyContainsStr out "additional_tasks" with
  | error e => exact h
  | ok has =>
    cases has with
    | false => exact h
    | true =>
      simp only []
      cases getItem out "additional_tasks" with
      | error e => exact h
      | ok av =>
        simp only []
        cases av with
        | arr entries => exact spawnEntries_WF entries s h
        | null => exact h
        | bool b => exact h
        | str st => exact h
        | obj kvs => exact h

theorem replanInner_WF (s : Orch) (task : Task) (h : WF s) :
    WF (replanInner s task).2.1 := by
  unfold replanInner
  cases loadsVal task.result with
  | error e => exact h
  | ok out =>
    simp only []
    cases getItem out "status" with
    | error e => exact h
    | ok st =>
      simp only []
      split
      · rcases hsa : spawnAdditional s out with ⟨ra, s2, evs⟩
        have h2 : WF s2 := by
          have := spawnAdditional_WF s out h
          rw [hsa] at this
          exact this
        cases ra with
        | error e => exact h2
        | ok u =>
          simp only []
          cases lookupStr task.params "query" with
          | none => exact h2
          | some qv => exact addTask_WF s2 _ rfl h2
      · exact h

/-! ## The replanning downgrade is dead code: completed synthesis results parse -/

/-- Is this exception a `json.JSONDecodeError`? -/
def PyErr.isDecode : PyErr → Bool
  | .jsonDecode _ => true
  | _ => false

theorem getItem_not_decode (v : Val) (k : String) (e : PyErr)
    (h : getItem v k = .error e) : e.isDecode = false := by
  cases v with
  | obj kvs =>
    simp only [getItem] at h
    cases hl : lookupStr kvs k with
    | some u => rw [hl] at h; simp at h
    | none =>
      rw [hl] at h
      simp only [] at h
      injection h with h1
      subst h1
      rfl
  | arr xs => simp only [getItem] at h; injection h with h1; subst h1; rfl
  | str st => simp only [getItem] at h; injection h with h1; subst h1; rfl
  | null => simp only [getItem] at h; injection h with h1; subst h1; rfl
  | bool b => simp only [getItem] at h; injection h with h1; subst h1; rfl

theorem pyContainsStr_not_decode (v : Val) (k : String) (e : PyErr)
    (h : pyContainsStr v k = .error e) : e.isDecode = false := by
  cases v with
  | obj kvs => simp [pyContainsStr] at h
  | arr xs => simp [pyContainsStr] at h
  | str st => simp [pyContainsStr] at h
  | null => simp only [pyContainsStr] at h; injection h with h1; subst h1; rfl
  | bool b => simp only [pyContainsStr] at h; injection h with h1; subst h1; rfl

theorem pyIter_not_decode (v : Val) (e : PyErr)
    (h : pyIter v = .error e) : e.isDecode = false := by
  cases v with
  | obj kvs => simp [pyIter] at h
  | arr xs => simp [pyIter] at h
  | str st => simp [pyIter] at h
  | null => simp only [pyIter] at h; injection h with h1; subst h1; rfl
  | bool b => simp only [pyIter] at h; injection h with h1; subst h1; rfl

theorem spawnEntry_not_decode (s : Orch) (entry : Val) (e : PyErr) (s2 : Orch)
    (evs : List Event) (h : spawnEntry s entry = (.error e, s2, evs)) :
    e.isDecode = false := by
  unfold spawnEntry at h
  match entry with
  | .null | .bool _ | .str _ | .arr _ => simp at h
  | .obj kvs =>
    simp only [] at h
    by_cases h1 : (lookupStr kvs "tool").getD Val.null = Val.str "scrape_urls"
    · rw [if_pos h1] at h
      cases hc : pyContainsStr ((lookupStr kvs "parameters").getD (.obj [])) "urls" with
      | error e0 =>
        rw [hc] at h
        simp only [Prod.mk.injEq] at h
        obtain ⟨h2, -, -⟩ := h
        injection h2 with h3
        subst h3
        exact pyContainsStr_not_decode _ _ _ hc
      | ok b =>
        rw [hc] at h
        cases b with
        | false => simp at h
        | true =>
          simp only [] at h
          cases hgi : getItem ((lookupStr kvs "parameters").getD (.obj [])) "urls" with
          | error e0 =>
            rw [hgi] at h
            simp only [Prod.mk.injEq] at h
            obtain ⟨h2, -, -⟩ := h
            injection h2 with h3
            subst h3
            exact getItem_not_decode _ _ _ hgi
          | ok urlsv =>
            rw [hgi] at h
            simp only [] at h
            cases hit : pyIter urlsv with
            | error e0 =>
              rw [hit] at h
              simp only [Prod.mk.injEq] at h
              obtain ⟨h2, -, -⟩ := h
              injection h2 with h3
              subst h3
              exact pyIter_not_decode _ _ hit
            | ok urls =>
              rw [hit] at h
              simp only [Prod.mk.injEq] at h
              obtain ⟨h2, -, -⟩ := h
              simp at h2
    · rw [if_neg h1] at h
      by_cases h2 : (lookupStr kvs "tool").getD Val.null = Val.str "google_search"
      · rw [if_pos h2] at h
        cases hc : pyContainsStr ((lookupStr kvs "parameters").getD (.obj [])) "q" with
        | error e0 =>
          rw [hc] at h
          simp only [Prod.mk.injEq] at h
          obtain ⟨h3, -, -⟩ := h
          injection h3 with h4
          subst h4
          exact pyContainsStr_not_decode _ _ _ hc
        | ok b =>
          rw [hc] at h
          cases b with
          | false => simp at h
          | true =>
            simp only [] at h
            cases hgi : getItem ((lookupStr kvs "parameters").getD (.obj [])) "q" with
            | error e0 =>
              rw [hgi] at h
              simp only [Prod.mk.injEq] at h
              obtain ⟨h3, -, -⟩ := h
              injection h3 with h4
              subst h4
              exact getItem_not_decode _ _ _ hgi
            | ok qv =>
              rw [hgi] at h
              simp at h
      · rw [if_neg h2] at h
        simp at h

theorem spawnEntries_not_decode (es : List Val) : ∀ (s : Orch) (e : PyErr) (s2 : Orch)
    (evs : List Event), spawnEntries s es = (.error e, s2, evs) → e.isDecode = false := by
  induction es with
  | nil => intro s e s2 evs h; simp [spawnEntries] at h
  | cons entry es ih =>
    intro s e s2 evs h
    simp only [spawnEntries] at h
    rcases hse : spawnEntry s entry with ⟨r1, sx, evsx⟩
    rw [hse] at h
    cases r1 with
    | ok u =>
      simp only [] at h
      rcases hrest : spawnEntries sx es with ⟨r2, sy, evsy⟩
      have h2 : r2 = .error e := by
        have := congrArg (fun p => p.1) h
        simpa [hrest] using this
      rw [h2] at hrest
      exact ih sx e sy evsy hrest
    | error err =>
      simp only [Prod.mk.injEq] at h
      obtain ⟨h2, -, -⟩ := h
      injection h2 with h3
      subst h3
      exact spawnEntry_not_decode s entry err sx evsx hse

theorem spawnAdditional_not_decode (s : Orch) (out : Val) (e : PyErr) (s2 : Orch)
    (evs : List Event) (h : spawnAdditional s out = (.error e, s2, evs)) :
    e.isDecode = false := by
  unfold spawnAdditional at h
  cases hc : pyContainsStr out "additional_tasks" with
  | error e0 =>
    rw [hc] at h
    simp only [Prod.mk.injEq] at h
    obtain ⟨h2, -, -⟩ := h
    injection h2 with h3
    subst h3
    exact pyContainsStr_not_decode _ _ _ hc
  | ok has =>
    rw [hc] at h
    cases has with
    | false => simp at h
    | true =>
      simp only [] at h
      cases hgi : getItem out "additional_tasks" with
      | error e0 =>
        rw [hgi] at h
        have h2 : e0 = e := by
          have h3 := congrArg (fun p => p.1) h
          simpa using h3
        subst h2
        exact getItem_not_decode _ _ _ hgi
      | ok av =>
        rw [hgi] at h
        simp only [] at h
        cases av with
        | arr entries => exact spawnEntries_not_decode entries s e s2 evs h
        | null => simp at h
        | bool b => simp at h
        | str st => simp at h
        | obj kvs => simp at h

theorem replanInner_not_decode (s : Orch) (task : Task) (out : Val)
    (hl : loadsVal task.result = .ok out) (e : PyErr) (s2 : Orch) (evs : List Event)
    (h : replanInner s task = (.error e, s2, evs)) : e.isDecode = false := by
  unfold replanInner at h
  rw [hl] at h
  simp only [] at h
  cases hg : getItem out "status" with
  | error e0 =>
    rw [hg] at h
    simp only [Prod.mk.injEq] at h
    obtain ⟨h2, -, -⟩ := h
    injection h2 with h3
    subst h3
    exact getItem_not_decode _ _ _ hg
  | ok st =>
    rw [hg] at h
    simp only [] at h
    split at h
    · rcases hsa : spawnAdditional s out with ⟨ra, sx, evsx⟩
      rw [hsa] at h
      cases ra with
      | error ea =>
        simp only [Prod.mk.injEq] at h
        obtain ⟨h2, -, -⟩ := h
        injection h2 with h3
        subst h3
        exact spawnAdditional_not_decode s out ea sx evsx hsa
      | ok u =>
        simp only [] at h
        cases hq : lookupStr task.params "query" with
        | none =>
          rw [hq] at h
          simp only [Prod.mk.injEq] at h
          obtain ⟨h2, -, -⟩ := h
          injection h2 with h3
          subst h3
          rfl
        | some qv =>
          rw [hq] at h
          simp at h
    · simp at h

/-- When the task\x27s stored result is valid JSON, the replanning handler
never fires: `replan` behaves exactly as its `try` body. -/
theorem replan_on_parsed (s : Orch) (ref : Nat) (task : Task) (out : Val)
    (h : heapGet s ref = some task) (hl : loadsVal task.result = .ok out) :
    replan s ref = replanInner s task := by
  unfold replan
  rw [h]
  simp only []
  rcases hri : replanInner s task with ⟨r1, s2, evs⟩
  cases r1 with
  | ok u => rfl
  | error e =>
    cases e with
    | jsonDecode m =>
      have := replanInner_not_decode s task out hl _ _ _ hri
      simp [PyErr.isDecode] at this
    | keyError k => rfl
    | typeError m => rfl
    | valueError m => rfl
    | attributeError m => rfl
    | indexError m => rfl

theorem synthesize_parses (c : Collab) (w : World) (query : String)
    (rr : List Val) (iteration : Nat) :
    ∃ v, parseJson (synthesize c w query rr iteration).1 = .ok v := by
  unfold synthesize
  simp only []
  cases c.llm w.l (synthPrompt query (fmtAll 1 rr) iteration) with
  | ok content =>
    simp only []
    cases parseJson content with
    | ok v => exact ⟨v, parseJson_dumpJson v⟩
    | error m => exact ⟨errorResponse m, parseJson_dumpJson _⟩
  | error e => exact ⟨errorResponse e, parseJson_dumpJson _⟩

theorem executeTaskBody_synth_ok (c : Collab) (s : Orch) (w : World) (task : Task)
    (hty : task.task_type = "synthesis") (v : Val)
    (h : (executeTaskBody c s w task).1 = .ok v) : ∃ out, loadsVal v = .ok out := by
  unfold executeTaskBody at h
  rw [hty] at h
  cases hd : collectDeps s task.dependencies with
  | error e => rw [hd] at h; simp at h
  | ok rr =>
    rw [hd] at h
    simp only [] at h
    cases hq : lookupStr task.params "query" with
    | none => rw [hq] at h; simp at h
    | some qv =>
      rw [hq] at h
      simp only [] at h
      injection h with h1
      obtain ⟨out, hout⟩ := synthesize_parses c w (pystr qv) rr (s.synthesis_iteration + 1)
      refine ⟨out, ?_⟩
      rw [← h1]
      simp only [loadsVal]
      rw [hout]

theorem heapGet_of_heapEq (s2 s : Orch) (h : s2.heap = s.heap) (q : Nat) :
    heapGet s2 q = heapGet s q := by
  simp [heapGet, h]

theorem executeTask_queue (c : Collab) (s : Orch) (w : World) (ref : Nat) :
    (executeTask c s w ref).1.task_queue = s.task_queue := by
  unfold executeTask
  cases hg : heapGet s ref with
  | none => rfl
  | some task =>
    simp only []
    rcases hb : executeTaskBody c (heapSet s ref { task with status := "in_progress" }) w
        { task with status := "in_progress" } with ⟨res, sb, wb⟩
    have hq := executeTaskBody_queue c (heapSet s ref { task with status := "in_progress" }) w
        { task with status := "in_progress" }
    rw [hb] at hq
    simp only at hq
    cases res with
    | ok v => simpa [heapSet] using hq
    | error e => simpa [heapSet] using hq

theorem executeTask_heap_length (c : Collab) (s : Orch) (w : World) (ref : Nat) :
    (executeTask c s w ref).1.heap.length = s.heap.length := by
  unfold executeTask
  cases hg : heapGet s ref with
  | none => rfl
  | some task =>
    simp only []
    rcases hb : executeTaskBody c (heapSet s ref { task with status := "in_progress" }) w
        { task with status := "in_progress" } with ⟨res, sb, wb⟩
    have hh := executeTaskBody_heap c (heapSet s ref { task with status := "in_progress" }) w
        { task with status := "in_progress" }
    rw [hb] at hh
    simp only at hh
    cases res with
    | ok v =>
      show (heapSet sb ref _).heap.length = s.heap.length
      simp [heapSet, hh, List.length_set]
    | error e =>
      show (heapSet sb ref _).heap.length = s.heap.length
      simp [heapSet, hh, List.length_set]

theorem executeTask_heapGet_ne (c : Collab) (s : Orch) (w : World) (ref q : Nat)
    (hne : ref ≠ q) : heapGet (executeTask c s w ref).1 q = heapGet s q := by
  unfold executeTask
  cases hg : heapGet s ref with
  | none => rfl
  | some task =>
    simp only []
    rcases hb : executeTaskBody c (heapSet s ref { task with status := "in_progress" }) w
        { task with status := "in_progress" } with ⟨res, sb, wb⟩
    have hh := executeTaskBody_heap c (heapSet s ref { task with status := "in_progress" }) w
        { task with status := "in_progress" }
    rw [hb] at hh
    simp only at hh
    cases res with
    | ok v =>
      exact (heapGet_heapSet_ne sb ref q _ hne).trans
        ((heapGet_of_heapEq sb _ hh q).trans (heapGet_heapSet_ne s ref q _ hne))
    | error e =>
      exact (heapGet_heapSet_ne sb ref q _ hne).trans
        ((heapGet_of_heapEq sb _ hh q).trans (heapGet_heapSet_ne s ref q _ hne))

theorem executeTask_WF (c : Collab) (s : Orch) (w : World) (ref : Nat) (task : Task)
    (h : heapGet s ref = some task) (hnin : ref ∉ s.task_queue) (hwf : WF s) :
    WF (executeTask c s w ref).1 := by
  obtain ⟨h1, h2, h3⟩ := hwf
  refine ⟨?_, ?_, ?_⟩
  · intro q hq
    rw [executeTask_queue] at hq
    rw [executeTask_heap_length]
    exact h1 q hq
  · rw [executeTask_queue]
    exact h2
  · intro q hq
    rw [executeTask_queue] at hq
    have hne : ref ≠ q := fun he => hnin (he ▸ hq)
    unfold pendingAt
    rw [executeTask_heapGet_ne c s w ref q hne]
    exact h3 q hq

/-- When `execute_task` leaves the task `completed`, its stored result is
exactly the `ok`-value of the dispatch body. -/
theorem executeTask_completed_body (c : Collab) (s : Orch) (w : World) (ref : Nat)
    (task t2 : Task) (h : heapGet s ref = some task)
    (hg2 : heapGet (executeTask c s w ref).1 ref = some t2)
    (hst : t2.status = "completed") :
    (executeTaskBody c (heapSet s ref { task with status := "in_progress" }) w
      { task with status := "in_progress" }).1 = .ok t2.result := by
  have hlt : ref < s.heap.length := heapGet_lt s ref task h
  unfold executeTask at hg2
  rw [h] at hg2
  simp only [] at hg2
  rcases hb : executeTaskBody c (heapSet s ref { task with status := "in_progress" }) w
      { task with status := "in_progress" } with ⟨res, sb, wb⟩
  have hh := executeTaskBody_heap c (heapSet s ref { task with status := "in_progress" }) w
      { task with status := "in_progress" }
  rw [hb] at hh
  simp only at hh
  have hlen : ref < sb.heap.length := by
    rw [hh]
    simpa [heapSet] using hlt
  rw [hb] at hg2
  simp only [] at hg2
  cases res with
  | ok v =>
    rw [heapGet_heapSet_self sb ref _ hlen] at hg2
    injection hg2 with hX
    subst hX
    rfl
  | error e =>
    rw [heapGet_heapSet_self sb ref _ hlen] at hg2
    injection hg2 with hX
    subst hX
    simp at hst

theorem executeTask_completed_loads (c : Collab) (s : Orch) (w : World) (ref : Nat)
    (task t2 : Task) (h : heapGet s ref = some task)
    (hty : task.task_type = "synthesis")
    (hg2 : heapGet (executeTask c s w ref).1 ref = some t2)
    (hst : t2.status = "completed") :
    ∃ out, loadsVal t2.result = .ok out :=
  executeTaskBody_synth_ok c (heapSet s ref { task with status := "in_progress" }) w
    { task with status := "in_progress" }
    (show ({ task with status := "in_progress" } : Task).task_type = "synthesis" from hty)
    t2.result (executeTask_completed_body c s w ref task t2 h hg2 hst)

theorem execute_tasks_statusSet (c : Collab) : ∀ (fuel : Nat) (s : Orch) (w : World)
    (r : Except PyErr Unit) (s2 : Orch) (w2 : World) (evs : List Event),
    execute_tasks c fuel s w = (r, s2, w2, evs) → WF s →
    ∀ ref old nw, Event.statusSet ref old nw ∈ evs →
      (old = "pending" ∧ nw = "in_progress") ∨
      (old = "in_progress" ∧ nw = "completed") ∨
      (old = "in_progress" ∧ nw = "failed") := by
  intro fuel
  induction fuel with
  | zero =>
    intro s w r s2 w2 evs h hwf
    simp only [execute_tasks, Prod.mk.injEq] at h
    obtain ⟨-, -, -, rfl⟩ := h
    intro ref old nw hm
    simp at hm
  | succ fuel ih =>
    intro s w r s2 w2 evs h hwf
    simp only [execute_tasks] at h
    cases hq : s.task_queue with
    | nil =>
      rw [hq] at h
      simp only [Prod.mk.injEq] at h
      obtain ⟨-, -, -, rfl⟩ := h
      intro ref old nw hm
      simp at hm
    | cons ref rest =>
      rw [hq] at h
      simp only [] at h
      obtain ⟨hwf0, hnin⟩ := WF_pop s ref rest hq hwf
      cases hg : heapGet { s with task_queue := rest } ref with
      | none =>
        rw [hg] at h
        exact ih { s with task_queue := rest } w r s2 w2 evs h hwf0
      | some task =>
        rw [hg] at h
        simp only [] at h
        have hpend : task.status = "pending" :=
          pendingAt_eq s ref task hg (hwf.2.2 ref (by rw [hq]; simp))
        split at h
        · rcases hex : executeTask c { s with task_queue := rest } w ref with ⟨s1, w1, evs1⟩
          rw [hex] at h
          simp only at h
          have hwf1 : WF s1 := by
            have := executeTask_WF c { s with task_queue := rest } w ref task hg hnin hwf0
            rw [hex] at this
            exact this
          have hcl1 : ∀ r2 old nw, Event.statusSet r2 old nw ∈ evs1 →
              (old = "pending" ∧ nw = "in_progress") ∨
              (old = "in_progress" ∧ nw = "completed") ∨
              (old = "in_progress" ∧ nw = "failed") := by
            intro r2 old nw hm
            obtain ⟨st2, v, -, -, hevs, hor⟩ :=
              executeTask_spec c { s with task_queue := rest } w ref task hg
            rw [hex] at hevs
            simp only at hevs
            rw [hevs] at hm
            simp only [List.mem_cons, List.not_mem_nil, or_false] at hm
            rcases hm with hm | hm | hm
            · exact absurd hm (by simp)
            · injection hm with e1 e2 e3
              exact .inl ⟨e2.trans hpend, e3⟩
            · injection hm with e1 e2 e3
              rcases hor with rfl | ⟨rfl, -⟩
              · exact .inr (.inl ⟨e2, e3⟩)
              · exact .inr (.inr ⟨e2, e3⟩)
          split at h
          · rename_i hsc
            obtain ⟨hty, hst1⟩ := hsc
            rcases hg1 : heapGet s1 ref with _ | t2
            · rw [hg1] at hst1
              simp only [] at hst1
              exact absurd hst1 (by decide)
            · rw [hg1] at hst1
              simp only [] at hst1
              obtain ⟨out, hout⟩ := executeTask_completed_loads c { s with task_queue := rest }
                w ref task t2 hg hty (by rw [hex]; exact hg1) hst1
              rcases hrp : replan s1 ref with ⟨r2, s2x, evs2⟩
              rw [hrp] at h
              have hre : replanInner s1 t2 = (r2, s2x, evs2) := by
                rw [← replan_on_parsed s1 ref t2 out hg1 hout]
                exact hrp
              have hev2 : ∀ e ∈ evs2, ∃ id, e = Event.spawned id s1.synthesis_iteration := by
                intro e he
                exact (replanInner_events s1 t2 e (by rw [hre]; exact he)).1
              have hwf2 : WF s2x := by
                have := replanInner_WF s1 t2 hwf1
                rw [hre] at this
                exact this
              cases r2 with
              | ok u =>
                simp only [] at h
                rcases hrec : execute_tasks c fuel s2x w1 with ⟨r3, s3, w3, evs3⟩
                rw [hrec] at h
                simp only [Prod.mk.injEq] at h
                obtain ⟨-, -, -, rfl⟩ := h
                intro r4 old nw hm
                rw [List.append_assoc, List.mem_append, List.mem_append] at hm
                rcases hm with hm | hm | hm
                · exact hcl1 r4 old nw hm
                · obtain ⟨id, heq⟩ := hev2 _ hm
                  simp at heq
                · exact ih s2x w1 r3 s3 w3 evs3 hrec hwf2 r4 old nw hm
              | error e2 =>
                simp only [Prod.mk.injEq] at h
                obtain ⟨-, -, -, rfl⟩ := h
                intro r4 old nw hm
                rw [List.mem_append] at hm
                rcases hm with hm | hm
                · exact hcl1 r4 old nw hm
                · obtain ⟨id, heq⟩ := hev2 _ hm
                  simp at heq
          · rcases hrec : execute_tasks c fuel s1 w1 with ⟨r3, s3, w3, evs3⟩
            rw [hrec] at h
            simp only [Prod.mk.injEq] at h
            obtain ⟨-, -, -, rfl⟩ := h
            intro r4 old nw hm
            rw [List.mem_append] at hm
            rcases hm with hm | hm
            · exact hcl1 r4 old nw hm
            · exact ih s1 w1 r3 s3 w3 evs3 hrec hwf1 r4 old nw hm
        · exact ih { s with task_queue := rest ++ [ref] } w r s2 w2 evs h
            (WF_requeue s ref rest task hq hg hwf)

/-- C7: from any well-formed state (queued refs valid, distinct, and
pending), every status transition recorded by a run follows
pending → in_progress → \x7bcompleted | failed\x7d. In particular no
operation ever moves a task out of `completed` or `failed` (the replanning
downgrade of a completed synthesis task is unreachable, because a completed
synthesis result always parses), and a task is never re-run once it leaves
`pending`: every transition into `in_progress` starts from `pending`. -/
theorem c7_status_transitions (c : Collab) (fuel : Nat) (s : Orch) (w : World)
    (r : Except PyErr Unit) (s2 : Orch) (w2 : World) (evs : List Event)
    (h : execute_tasks c fuel s w = (r, s2, w2, evs)) (hwf : WF s) :
    (∀ ref old nw, Event.statusSet ref old nw ∈ evs →
      (old = "pending" ∧ nw = "in_progress") ∨
      (old = "in_progress" ∧ nw = "completed") ∨
      (old = "in_progress" ∧ nw = "failed")) ∧
    (∀ ref old nw, Event.statusSet ref old nw ∈ evs →
      old ≠ "completed" ∧ old ≠ "failed") := by
  have hmain := execute_tasks_statusSet c fuel s w r s2 w2 evs h hwf
  refine ⟨hmain, ?_⟩
  intro ref old nw hm
  rcases hmain ref old nw hm with ⟨rfl, rfl⟩ | ⟨rfl, rfl⟩ | ⟨rfl, rfl⟩ <;>
    exact ⟨by decide, by decide⟩

theorem c7_status_transitions_witness :
    ("pending" = "pending" ∧ "in_progress" = "in_progress") ∨
    ("pending" = "in_progress" ∧ "in_progress" = "completed") ∨
    ("pending" = "in_progress" ∧ "in_progress" = "failed") :=
  (c7_status_transitions collabFail 2 sC4 wC4
    (execute_tasks collabFail 2 sC4 wC4).1
    (execute_tasks collabFail 2 sC4 wC4).2.1
    (execute_tasks collabFail 2 sC4 wC4).2.2.1
    (execute_tasks collabFail 2 sC4 wC4).2.2.2 rfl
    ⟨by decide, by decide, by decide⟩).1 0 "pending" "in_progress"
    (by decide)

/-- C1: dependency gating. Whenever a task starts executing (its `started`
event — the moment it transitions to `in_progress`), every one of its
dependency ids is registered and refers to a task whose status is
`completed` in the pre-state recorded by that event; hence a task with a
missing or not-yet-completed dependency never reaches `in_progress` (it is
requeued instead). -/
theorem c1_dependency_gating (c : Collab) (fuel : Nat) (s : Orch) (w : World)
    (r : Except PyErr Unit) (s2 : Orch) (w2 : World) (evs : List Event)
    (pre : Orch) (t : Task) (d : String)
    (h : execute_tasks c fuel s w = (r, s2, w2, evs))
    (hm : Event.started pre t ∈ evs)
    (hd : d ∈ t.dependencies) :
    ∃ u, regGet pre d = some u ∧ u.status = "completed" :=
  canExecute_deps pre t (execute_tasks_started c fuel s w r s2 w2 evs h pre t hm) d hd

/-- A completed retrieval task plus a pending synthesis task depending on
it, with the synthesis task queued. -/
def tR1 : Task :=
  { task_id := "r1", task_type := "retrieval", params := [("query", .str "x")],
    dependencies := [], status := "completed", result := .str "data" }

def tS1 : Task := Task.make "s1" "synthesis" [("query", .str "q")] ["r1"]

def sC1 : Orch :=
  { heap := [tR1, tS1], task_queue := [1], tasks := [("r1", 0), ("s1", 1)],
    synthesis_iteration := 0, rcache := [] }

theorem c1_dependency_gating_witness :
    ∃ u, regGet { sC1 with task_queue := ([] : List Nat) } "r1" = some u
      ∧ u.status = "completed" :=
  c1_dependency_gating collabFail 1 sC1 wC4
    (execute_tasks collabFail 1 sC1 wC4).1
    (execute_tasks collabFail 1 sC1 wC4).2.1
    (execute_tasks collabFail 1 sC1 wC4).2.2.1
    (execute_tasks collabFail 1 sC1 wC4).2.2.2
    { sC1 with task_queue := ([] : List Nat) } tS1 "r1"
    rfl (by decide) (by decide)

/-- C3 (counterexample): `execute_tasks` *does* propagate exceptions from the
replanning block. With an LLM that answers `[]`, the synthesis task completes
with valid-JSON result `[]`; the replanning subscript `synthesis_output["status"]`
then raises `TypeError`, which `except json.JSONDecodeError` does not catch,
and the whole loop aborts with that exception. -/
theorem c3_counterexample :
    (execute_tasks (llmConst "[]") 2 sC3 wC4).1
      = .error (.typeError "list indices must be integers or slices, not str") := by
  decide

/-- C3 (amended): every exception inside `execute_task`\x27s dispatch is caught
there — the task always ends `completed`, or `failed` with an `[Error: ...]`
message as its result. In the replanning block, only a JSON *decode* failure
of a completed synthesis result is downgraded to `failed` with
`[Error: Invalid synthesis output format]`; any other exception raised while
inspecting the parsed result escapes the block (and aborts the loop). -/
theorem c3_exceptions_amended (c : Collab) (s : Orch) (w : World) (ref : Nat) (task : Task)
    (h : heapGet s ref = some task) :
    (∃ t2, heapGet (executeTask c s w ref).1 ref = some t2 ∧
      (t2.status = "completed" ∨
        (t2.status = "failed" ∧ ∃ m, t2.result = Val.str ("[Error: " ++ m ++ "]")))) ∧
    (∀ m s2 evs t2, replanInner s task = (.error (.jsonDecode m), s2, evs) →
      heapGet s2 ref = some t2 →
      replan s ref = (.ok (), heapSet s2 ref
        { t2 with
          status := "failed",
          result := .str "[Error: Invalid synthesis output format]" },
        evs ++ [Event.statusSet ref t2.status "failed"])) ∧
    (∀ e s2 evs, replanInner s task = (.error e, s2, evs) →
      (∀ m, e ≠ .jsonDecode m) →
      replan s ref = (.error e, s2, evs)) := by
  refine ⟨executeTask_status c s w ref task h, ?_, ?_⟩
  · intro m s2 evs t2 hri ht2
    unfold replan
    rw [h]
    simp only []
    rw [hri]
    simp only []
    rw [ht2]
  · intro e s2 evs hri hne
    unfold replan
    rw [h]
    simp only []
    rw [hri]
    cases e with
    | jsonDecode m => exact absurd rfl (hne m)
    | keyError k => rfl
    | typeError m => rfl
    | valueError m => rfl
    | attributeError m => rfl
    | indexError m => rfl

theorem c3_exceptions_amended_witness :
    ∃ t2, heapGet (executeTask collabFail sC4 wC4 0).1 0 = some t2 ∧
      (t2.status = "completed" ∨
        (t2.status = "failed" ∧ ∃ m, t2.result = Val.str ("[Error: " ++ m ++ "]"))) :=
  (c3_exceptions_amended collabFail sC4 wC4 0 (Task.make "s1" "synthesis" [] [])
    (by decide)).1

/-- C8: `SynthesisAgent.synthesize` is total and always returns well-formed
JSON: its output re-parses successfully for every collaborator outcome. When
the OpenAI call fails, or when its reply is not valid JSON, the returned
document is exactly the structured error response, whose `status` field is
`"complete"` and whose `summary` explains the failure; exactly one LLM call
is counted either way. -/
theorem c8_synthesize_total (c : Collab) (w : World) (query : String)
    (retrieval_results : List Val) (iteration : Nat) :
    (∃ v, parseJson (synthesize c w query retrieval_results iteration).1 = .ok v) ∧
    (∀ e, c.llm w.l (synthPrompt query (fmtAll 1 retrieval_results) iteration) = .error e →
      (synthesize c w query retrieval_results iteration).1 = dumpJson (errorResponse e) ∧
      getItem (errorResponse e) "status" = .ok (.str "complete") ∧
      getItem (errorResponse e) "summary"
        = .ok (.str ("Error during synthesis: " ++ e))) ∧
    (∀ content m,
      c.llm w.l (synthPrompt query (fmtAll 1 retrieval_results) iteration) = .ok content →
      parseJson content = .error m →
      (synthesize c w query retrieval_results iteration).1 = dumpJson (errorResponse m)) ∧
    (synthesize c w query retrieval_results iteration).2 = { w with l := w.l + 1 } := by
  unfold synthesize
  simp only []
  cases hl : c.llm w.l (synthPrompt query (fmtAll 1 retrieval_results) iteration) with
  | ok content =>
    simp only []
    cases hp : parseJson content with
    | ok v =>
      refine ⟨⟨v, parseJson_dumpJson v⟩, ?_, ?_, rfl⟩
      · intro e he
        simp at he
      · intro content2 m hok hm
        injection hok with hc
        subst hc
        rw [hp] at hm
        simp at hm
    | error m =>
      refine ⟨⟨errorResponse m, parseJson_dumpJson _⟩, ?_, ?_, rfl⟩
      · intro e he
        simp at he
      · intro content2 m2 hok hm2
        injection hok with hc
        subst hc
        rw [hp] at hm2
        injection hm2 with hmm
        subst hmm
        rfl
  | error e =>
    refine ⟨⟨errorResponse e, parseJson_dumpJson _⟩, ?_, ?_, rfl⟩
    · intro e2 he2
      injection he2 with hee
      subst hee
      exact ⟨rfl, rfl, rfl⟩
    · intro content m hok hm
      simp at hok

theorem c8_synthesize_total_witness :
    (synthesize collabFail wC4 "q" [] 1).1
      = dumpJson (errorResponse "api down") ∧
    getItem (errorResponse "api down") "status" = .ok (.str "complete") ∧
    getItem (errorResponse "api down") "summary"
      = .ok (.str ("Error during synthesis: " ++ "api down")) :=
  (c8_synthesize_total collabFail wC4 "q" [] 1).2.1 "api down" rfl

/-- C4 (counterexample): the iteration counter does not count Synthesis
*completions*. Running the one-synthesis-task state `sC4` (whose task lacks
its `query` parameter) increments the counter to 1 although the task ends
`failed` and the run records no transition to `completed` at all. -/
theorem c4_counterexample :
    (execute_tasks collabFail 2 sC4 wC4).2.1.synthesis_iteration = 1 ∧
    heapGet (execute_tasks collabFail 2 sC4 wC4).2.1 0
      = some { Task.make "s1" "synthesis" [] [] with
          status := "failed", result := .str "[Error: \x27query\x27]" } ∧
    ((execute_tasks collabFail 2 sC4 wC4).2.2.2.countP
      (fun e => match e with | .statusSet _ _ n => n = "completed" | _ => false)) = 0 := by
  refine ⟨by decide, by decide, by decide⟩

/-- C4 (amended): over any run of `execute_tasks`, the synthesis iteration
counter increases by exactly 1 per *execution* of a Synthesis task (counted
by its `started` event, whether the task ends `completed` or `failed`, and
independently of how many tasks are spawned), and every `spawned` event is
recorded at a counter value strictly below the cap of 8. -/
theorem c4_iteration_amended (c : Collab) (fuel : Nat) (s : Orch) (w : World)
    (r : Except PyErr Unit) (s2 : Orch) (w2 : World) (evs : List Event)
    (h : execute_tasks c fuel s w = (r, s2, w2, evs)) :
    s2.synthesis_iteration = s.synthesis_iteration + evs.countP isSynthStart ∧
    (∀ id n, Event.spawned id n ∈ evs → n < 8) :=
  ⟨execute_tasks_iter c fuel s w r s2 w2 evs h,
   execute_tasks_spawn_lt c fuel s w r s2 w2 evs h⟩

/-! ## Cache lemmas for the RetrievalAgent -/

theorem cacheLookup_cacheSet_self (cache : List (Val × Val)) (k v : Val) :
    cacheLookup (cacheSet cache k v) k = some v := by
  induction cache with
  | nil => simp [cacheSet, cacheLookup]
  | cons p kvs ih =>
    rcases p with ⟨k2, v2⟩
    by_cases h : k2 = k
    · simp [cacheSet, h, cacheLookup]
    · simp [cacheSet, h, cacheLookup, ih]

theorem search_hit (c : Collab) (cache : List (Val × Val)) (w : World) (q v : Val)
    (h : cacheLookup cache q = some v) : search c cache w q = (v, cache, w) := by
  unfold search
  rw [h]

theorem retrieve_hit (c : Collab) (cache : List (Val × Val)) (w : World) (url v : Val)
    (h : cacheLookup cache url = some v) : retrieve_webpage c cache w url = (v, cache, w) := by
  unfold retrieve_webpage
  rw [h]

theorem cacheLookup_search (c : Collab) (cache : List (Val × Val)) (w : World) (q : Val) :
    cacheLookup (search c cache w q).2.1 q = some (search c cache w q).1 := by
  unfold search
  cases hl : cacheLookup cache q with
  | some v => simp [hl]
  | none =>
    simp only [hl]
    cases hg : c.gsearch w.g q with
    | ok results => exact cacheLookup_cacheSet_self cache q results
    | error e => exact cacheLookup_cacheSet_self cache q _

theorem cacheLookup_retrieve (c : Collab) (cache : List (Val × Val)) (w : World) (url : Val) :
    cacheLookup (retrieve_webpage c cache w url).2.1 url
      = some (retrieve_webpage c cache w url).1 := by
  unfold retrieve_webpage
  cases hl : cacheLookup cache url with
  | some v => simp [hl]
  | none =>
    simp only [hl]
    cases hs : c.scrape w.s [url] with
    | error e => exact cacheLookup_cacheSet_self cache url _
    | ok response =>
      simp only []
      cases hc : scrapeContent response url with
      | ok content => exact cacheLookup_cacheSet_self cache url content
      | error e => exact cacheLookup_cacheSet_self cache url _

/-- C9: per-run memoization of `RetrievalAgent.search` and
`retrieve_webpage`. A cache hit returns the cached value — including an
error-shaped one — with the cache and every invocation counter untouched;
on a cache miss the external collaborator is invoked exactly once (its
counter advances by exactly 1, the other is untouched), the outcome is
cached under the raw query/URL, and the immediately repeated call returns
that same value with no further invocation. -/
theorem c9_memoization (c : Collab) (cache : List (Val × Val)) (w : World) (q : Val) :
    (∀ v, cacheLookup cache q = some v →
      search c cache w q = (v, cache, w) ∧ retrieve_webpage c cache w q = (v, cache, w)) ∧
    (cacheLookup cache q = none →
      (search c cache w q).2.2.g = w.g + 1 ∧ (search c cache w q).2.2.s = w.s ∧
      (retrieve_webpage c cache w q).2.2.s = w.s + 1 ∧
      (retrieve_webpage c cache w q).2.2.g = w.g) ∧
    cacheLookup (search c cache w q).2.1 q = some (search c cache w q).1 ∧
    cacheLookup (retrieve_webpage c cache w q).2.1 q
      = some (retrieve_webpage c cache w q).1 ∧
    search c (search c cache w q).2.1 (search c cache w q).2.2 q
      = ((search c cache w q).1, (search c cache w q).2.1, (search c cache w q).2.2) ∧
    retrieve_webpage c (retrieve_webpage c cache w q).2.1 (retrieve_webpage c cache w q).2.2 q
      = ((retrieve_webpage c cache w q).1, (retrieve_webpage c cache w q).2.1,
         (retrieve_webpage c cache w q).2.2) := by
  refine ⟨?_, ?_, cacheLookup_search c cache w q, cacheLookup_retrieve c cache w q, ?_, ?_⟩
  · intro v hv
    exact ⟨search_hit c cache w q v hv, retrieve_hit c cache w q v hv⟩
  · intro hm
    refine ⟨?_, ?_, ?_, ?_⟩
    · unfold search
      simp only [hm]
      cases hg : c.gsearch w.g q <;> rfl
    · unfold search
      simp only [hm]
      cases hg : c.gsearch w.g q <;> rfl
    · unfold retrieve_webpage
      simp only [hm]
      cases hs : c.scrape w.s [q] with
      | error e => rfl
      | ok response =>
        simp only []
        cases hc : scrapeContent response q <;> rfl
    · unfold retrieve_webpage
      simp only [hm]
      cases hs : c.scrape w.s [q] with
      | error e => rfl
      | ok response =>
        simp only []
        cases hc : scrapeContent response q <;> rfl
  · exact search_hit c _ _ q _ (cacheLookup_search c cache w q)
  · exact retrieve_hit c _ _ q _ (cacheLookup_retrieve c cache w q)

theorem c9_memoization_witness :
    search collabFail [(Val.str "u", Val.str "hello")] wC4 (.str "u")
      = (Val.str "hello", [(Val.str "u", Val.str "hello")], wC4) ∧
    retrieve_webpage collabFail [(Val.str "u", Val.str "hello")] wC4 (.str "u")
      = (Val.str "hello", [(Val.str "u", Val.str "hello")], wC4) :=
  (c9_memoization collabFail [(Val.str "u", Val.str "hello")] wC4 (.str "u")).1
    (Val.str "hello") rfl

/-- C10: `search` and `retrieve_webpage` share the single unnamespaced
`self.cache` keyed by the raw string: after any `retrieve_webpage s` call, a
later `search s` returns exactly the value `retrieve_webpage` produced (the
cached page text rather than a search-result list), invoking nothing and
changing nothing; and conversely a later `retrieve_webpage s` returns the
value cached by `search s`. -/
theorem c10_shared_cache (c : Collab) (cache : List (Val × Val)) (w : World) (sv : Val) :
    search c (retrieve_webpage c cache w sv).2.1 (retrieve_webpage c cache w sv).2.2 sv
      = ((retrieve_webpage c cache w sv).1, (retrieve_webpage c cache w sv).2.1,
         (retrieve_webpage c cache w sv).2.2) ∧
    retrieve_webpage c (search c cache w sv).2.1 (search c cache w sv).2.2 sv
      = ((search c cache w sv).1, (search c cache w sv).2.1, (search c cache w sv).2.2) :=
  ⟨search_hit c _ _ sv _ (cacheLookup_retrieve c cache w sv),
   retrieve_hit c _ _ sv _ (cacheLookup_search c cache w sv)⟩

theorem c4_iteration_amended_witness :
    (execute_tasks collabFail 2 sC4 wC4).2.1.synthesis_iteration
      = sC4.synthesis_iteration
        + ((execute_tasks collabFail 2 sC4 wC4).2.2.2.countP isSynthStart) :=
  (c4_iteration_amended collabFail 2 sC4 wC4
    (execute_tasks collabFail 2 sC4 wC4).1
    (execute_tasks collabFail 2 sC4 wC4).2.1
    (execute_tasks collabFail 2 sC4 wC4).2.2.1
    (execute_tasks collabFail 2 sC4 wC4).2.2.2 rfl).1

end DR
